import Mathlib

/-!
Verification development for the DigiFox CW (Morse) decoder core.

The C sources under `DigiFox/Codec/CW` are shallowly embedded here.
Machine `float` arithmetic is idealised as arithmetic in a linear ordered
field `α`; the transcendental functions from `math.h` that the code calls
(`logf`, `expf`, `sqrtf`, `tanf`, `cosf`, `sinf`, `atan2f`), the constant
`M_PI`, and the C `(int)` cast are abstracted as a record `CMath α` of
operations, instantiated with the exact real functions for the analytic
theorems and with rational stand-ins for executable concrete runs.
Output buffers are modelled as the list of characters written, in order:
the C code always stores at index `written` (the current count), so
"never stores at or beyond `out_len`" corresponds to the length bound on
the returned list.  C `int` values are modelled as `ℤ`.
-/

/-- Record of the `math.h` operations and constants used by the C sources:
`log`, `exp`, `sqrt`, `tan`, `cos`, `sin`, `atan2`, the constant `M_PI`,
and `toInt`, the C `(int)` cast (truncation toward zero). -/
structure CMath (α : Type) where
  log : α → α
  exp : α → α
  sqrt : α → α
  tan : α → α
  cos : α → α
  sin : α → α
  atan2 : α → α → α
  pi : α
  toInt : α → ℤ

/-- The exact real instantiation of the float math library. -/
noncomputable def realCMath : CMath ℝ where
  log := Real.log
  exp := Real.exp
  sqrt := Real.sqrt
  tan := Real.tan
  cos := Real.cos
  sin := Real.sin
  atan2 := fun y x => (Complex.mk x y).arg
  pi := Real.pi
  toInt := fun x => if x < 0 then -(Int.floor (-x)) else Int.floor x

/-- Rational stand-ins for the float math library, used for executable
concrete runs.  `pi` is a close rational approximation of `M_PI`; `sqrt` is
the floor square root (exact at `1`, the only point where the concrete runs
below evaluate it); `log`, `exp`, `tan`, `cos`, `sin`, `atan2` are dummy
constants, consulted by no concrete run in this file (the runs use the EMA
timing mode and a zero-bandwidth configuration, whose executed paths never
call them). -/
def qCMath : CMath ℚ where
  log := fun _ => 0
  exp := fun _ => 0
  sqrt := fun q => (Int.sqrt (q.num * (q.den : ℤ)) : ℚ) / (q.den : ℚ)
  tan := fun _ => 0
  cos := fun _ => 0
  sin := fun _ => 0
  atan2 := fun _ _ => 0
  pi := 314159265358979 / 100000000000000
  toInt := fun q => if q < 0 then -(Int.floor (-q)) else Int.floor q

/-! ## morse_table.c -/

/-- Element codes from `timing.h`: `ELEM_NONE` is `0`. -/
def ELEM_NONE : Char := Char.ofNat 0

/-- `ELEM_DIT` is the character `.` . -/
def ELEM_DIT : Char := '.'

/-- `ELEM_DAH` is the character `-` . -/
def ELEM_DAH : Char := '-'

/-- `ELEM_CHAR` is the character `C`. -/
def ELEM_CHAR : Char := 'C'

/-- `ELEM_WORD` is the character `W`. -/
def ELEM_WORD : Char := 'W'

/-- The static table of `morse_table.c`: pattern, character, weight,
in source order. -/
def MORSE_TABLE : List (List Char × Char × ℤ) :=
  [ (['.'], 'E', 321),
    (['-'], 'T', 236),
    (['.', '.'], 'I', 115),
    (['.', '-'], 'A', 127),
    (['-', '.'], 'N', 103),
    (['-', '-'], 'M', 48),
    (['.', '.', '.'], 'S', 101),
    (['.', '.', '-'], 'U', 48),
    (['.', '-', '.'], 'R', 84),
    (['.', '-', '-'], 'W', 38),
    (['-', '.', '.'], 'D', 68),
    (['-', '.', '-'], 'K', 17),
    (['-', '-', '.'], 'G', 31),
    (['-', '-', '-'], 'O', 127),
    (['.', '.', '.', '.'], 'H', 103),
    (['.', '.', '.', '-'], 'V', 16),
    (['.', '.', '-', '.'], 'F', 37),
    (['.', '-', '.', '.'], 'L', 66),
    (['.', '-', '-', '.'], 'P', 31),
    (['.', '-', '-', '-'], 'J', 3),
    (['-', '.', '.', '.'], 'B', 25),
    (['-', '.', '.', '-'], 'X', 3),
    (['-', '.', '-', '.'], 'C', 44),
    (['-', '.', '-', '-'], 'Y', 32),
    (['-', '-', '.', '.'], 'Z', 2),
    (['-', '-', '.', '-'], 'Q', 2),
    (['.', '-', '-', '-', '-'], '1', 10),
    (['.', '.', '-', '-', '-'], '2', 10),
    (['.', '.', '.', '-', '-'], '3', 10),
    (['.', '.', '.', '.', '-'], '4', 10),
    (['.', '.', '.', '.', '.'], '5', 10),
    (['-', '.', '.', '.', '.'], '6', 10),
    (['-', '-', '.', '.', '.'], '7', 10),
    (['-', '-', '-', '.', '.'], '8', 10),
    (['-', '-', '-', '-', '.'], '9', 10),
    (['-', '-', '-', '-', '-'], '0', 10),
    (['.', '-', '.', '-', '.', '-'], '.', 5),
    (['-', '-', '.', '.', '-', '-'], ',', 5),
    (['.', '.', '-', '-', '.', '.'], '?', 5),
    (['.', '-', '-', '-', '-', '.'], Char.ofNat 39, 3),
    (['-', '.', '-', '.', '-', '-'], '!', 3),
    (['-', '.', '.', '-', '.'], '/', 5),
    (['-', '.', '-', '-', '.'], '(', 3),
    (['-', '.', '-', '-', '.', '-'], ')', 3),
    (['.', '-', '.', '.', '.'], '&', 3),
    (['-', '-', '-', '.', '.', '.'], ':', 3),
    (['-', '.', '-', '.', '-', '.'], ';', 3),
    (['-', '.', '.', '.', '-'], '=', 5),
    (['.', '-', '.', '-', '.'], '+', 3),
    (['-', '.', '.', '.', '.', '-'], '-', 3),
    (['.', '.', '-', '-', '.', '-'], '_', 3),
    (['.', '-', '.', '.', '-', '.'], Char.ofNat 34, 3),
    (['.', '.', '.', '-', '.', '.', '-'], '$', 3),
    (['.', '-', '-', '.', '-', '.'], '@', 3) ]

/-- `morse_lookup`: linear scan of the table; `?` on empty pattern or miss. -/
def morse_lookup (pattern : List Char) : Char :=
  if pattern = [] then '?'
  else
    match MORSE_TABLE.find? (fun e => e.1 = pattern) with
    | some e => e.2.1
    | none => '?'

/-- `morse_char_weight`: weight of the first table entry with the given
character; `1` when the character is not in the table. -/
def morse_char_weight (ch : Char) : ℤ :=
  match MORSE_TABLE.find? (fun e => e.2.1 = ch) with
  | some e => e.2.2
  | none => 1

/-- Split positions tried by the loop of `morse_lookup_merged`:
`pos` from `1` while `pos < len` and `pos < 15`. -/
def morse_split_positions (len : ℕ) : List ℕ :=
  List.range' 1 (min len 15 - 1)

/-- One step of the best-split accumulator loop in `morse_lookup_merged`:
state is `(best_weight, best_left, best_right)`. -/
def morse_split_step (pattern : List Char) (acc : ℤ × Char × Char) (pos : ℕ) :
    ℤ × Char × Char :=
  let lch := morse_lookup (pattern.take pos)
  let rch := morse_lookup (pattern.drop pos)
  if lch ≠ '?' ∧ rch ≠ '?' then
    let w := morse_char_weight lch + morse_char_weight rch
    if w > acc.1 then (w, lch, rch) else acc
  else acc

/-- `morse_lookup_merged`: the list of characters written to `out`
(its length is the C return value). -/
def morse_lookup_merged (pattern : List Char) (out_len : ℤ) : List Char :=
  if pattern = [] ∨ out_len < 1 then []
  else
    let direct := morse_lookup pattern
    if direct ≠ '?' then [direct]
    else if (pattern.length : ℤ) ≤ 1 then ['?']
    else
      let best := (morse_split_positions pattern.length).foldl
        (morse_split_step pattern) (-1, Char.ofNat 0, Char.ofNat 0)
      if 0 ≤ best.1 ∧ 2 ≤ out_len then [best.2.1, best.2.2] else ['?']

/-! ## output_filter.c -/

/-- State of `output_filter_t`: the word buffer is the list of its valid
characters (`word_len` is its length). -/
structure output_filter_t where
  word_buf : List Char
  warmed_up : Bool
  min_word_length : ℤ
deriving DecidableEq

/-- `is_noise_char`: the noise-prone set. -/
def is_noise_char (ch : Char) : Bool :=
  ch == 'E' || ch == 'T' || ch == 'I' || ch == 'A' || ch == 'N' || ch == 'M' || ch == '?'

/-- `output_filter_init`. -/
def output_filter_init (min_word_length : ℤ) : output_filter_t :=
  { word_buf := [], warmed_up := false, min_word_length := min_word_length }

/-- `emit_word`: characters written and updated filter state.  The word
buffer itself is cleared by the callers, as in the C. -/
def emit_word (f : output_filter_t) (out_len : ℤ) : List Char × output_filter_t :=
  if f.word_buf.length = 0 then ([], f)
  else if f.warmed_up then
    let n := min (f.word_buf.length : ℤ) out_len
    (f.word_buf.take n.toNat, f)
  else if (f.word_buf.length : ℤ) < f.min_word_length ∧ f.word_buf.all is_noise_char then
    ([], f)
  else
    let n := min (f.word_buf.length : ℤ) out_len
    (f.word_buf.take n.toNat, { f with warmed_up := true })

/-- The character-by-character loop of `output_filter_feed`. -/
def output_filter_feed_go (f : output_filter_t) (text : List Char)
    (out_len written : ℤ) : List Char × output_filter_t :=
  match text with
  | [] => ([], f)
  | ch :: rest =>
    if written < out_len then
      if ch = ' ' then
        let p := emit_word f (out_len - written)
        let n : ℤ := p.1.length
        if 0 < n then
          let q : List Char × ℤ :=
            if written + n < out_len then (p.1 ++ [' '], written + n + 1)
            else (p.1, written + n)
          let r := output_filter_feed_go { p.2 with word_buf := [] } rest out_len q.2
          (q.1 ++ r.1, r.2)
        else
          let r := output_filter_feed_go { p.2 with word_buf := [] } rest out_len written
          (r.1, r.2)
      else
        let f1 := if f.word_buf.length < 63 then { f with word_buf := f.word_buf ++ [ch] } else f
        output_filter_feed_go f1 rest out_len written
    else ([], f)

/-- `output_filter_feed`. -/
def output_filter_feed (f : output_filter_t) (text : List Char) (out_len : ℤ) :
    List Char × output_filter_t :=
  output_filter_feed_go f text out_len 0

/-- `output_filter_flush`. -/
def output_filter_flush (f : output_filter_t) (out_len : ℤ) :
    List Char × output_filter_t :=
  let p := emit_word f out_len
  (p.1, { p.2 with word_buf := [] })

/-- `output_filter_reset`. -/
def output_filter_reset (f : output_filter_t) : output_filter_t :=
  { f with word_buf := [], warmed_up := false }

/-! ## kalman.c -/

variable {α : Type} [LinearOrderedField α]

/-- State of `kalman_t` (`KALMAN_STATES = 5`). -/
structure kalman_t (α : Type) where
  x : Fin 5 → α
  P : Fin 5 → Fin 5 → α
  Q : Fin 5 → α
  R : α
  innovation_gate : α
  sample_rate : ℤ
  min_wpm : α
  max_wpm : α

/-- The all-zero `kalman_t`, as produced by `memset` in `timing_init`
when the EMA mode is selected. -/
def zeroKalman : kalman_t α :=
  { x := fun _ => 0, P := fun _ _ => 0, Q := fun _ => 0, R := 0,
    innovation_gate := 0, sample_rate := 0, min_wpm := 0, max_wpm := 0 }

/-- `kalman_reset`. -/
def kalman_reset (ops : CMath α) (k : kalman_t α) (initial_wpm : α) : kalman_t α :=
  let dit_s := (6 / 5 : α) / initial_wpm
  let dit_samples := dit_s * ((k.sample_rate : ℤ) : α)
  { k with
    x := ![ops.log dit_samples, ops.log (dit_samples * 3),
           ops.log dit_samples, ops.log (dit_samples * 3),
           ops.log (dit_samples * 7)],
    P := fun i j => if i = j then 1 / 10 else 0 }

/-- `kalman_init`.  The C constant `M_LN2` (the gate) is idealised as
`log 2`. -/
def kalman_init (ops : CMath α) (sample_rate : ℤ) (initial_wpm min_wpm max_wpm : α) :
    kalman_t α :=
  kalman_reset ops
    { zeroKalman with
      sample_rate := sample_rate, min_wpm := min_wpm, max_wpm := max_wpm,
      R := 1 / 10, innovation_gate := ops.log 2,
      Q := fun _ => 1 / 100 }
    initial_wpm

/-- Two sequential clamping ifs, as written in `apply_bounds`:
first raise to `lo`, then cap at `hi`. -/
def cclamp (lo hi v : α) : α :=
  let v1 := if v < lo then lo else v
  if v1 > hi then hi else v1

/-- `apply_bounds`: project the log-state onto the WPM and ratio bounds.
The C constant `M_LN2` is idealised as `log 2`. -/
def apply_bounds (ops : CMath α) (k : kalman_t α) : kalman_t α :=
  let min_dit := ((6 / 5 : α) / k.max_wpm) * ((k.sample_rate : ℤ) : α)
  let max_dit := ((6 / 5 : α) / k.min_wpm) * ((k.sample_rate : ℤ) : α)
  let log_min := ops.log min_dit
  let log_max := ops.log max_dit
  let ld := cclamp log_min log_max (k.x 0)
  let dah := cclamp (ld + ops.log 2) (ld + ops.log 4) (k.x 1)
  let es := cclamp (ld - ops.log 2) (ld + ops.log 2) (k.x 2)
  let cs := cclamp (ld + ops.log 2) (ld + ops.log 4) (k.x 3)
  let ws := cclamp (ld + ops.log 5) (ld + ops.log 9) (k.x 4)
  { k with x := ![ld, dah, es, cs, ws] }

/-- The innovation variance `S` of `kalman_update`, with the `1e-10`
floor. -/
def kalman_S (k : kalman_t α) (j : Fin 5) : α :=
  let S0 := k.P j j + k.R
  if S0 < 1 / 10000000000 then 1 / 10000000000 else S0

/-- The accepted-measurement body of `kalman_update`: gain, state update,
Joseph-form covariance update and process noise, for measurement index `j`
and innovation `innovation`. -/
def kalman_joseph (k : kalman_t α) (j : Fin 5) (innovation : α) : kalman_t α :=
  let S := kalman_S k j
  let K : Fin 5 → α := fun i => k.P i j / S
  let x1 : Fin 5 → α := fun i => k.x i + K i * innovation
  let P1 : Fin 5 → Fin 5 → α := fun i l =>
    (k.P i l - K i * k.P j l - k.P i j * K l + K i * k.P j j * K l
      + K i * k.R * K l) + (if i = l then k.Q i else 0)
  { k with x := x1, P := P1 }

/-- `kalman_update`: returns the updated state and the C return value
(`true` for accepted). -/
def kalman_update (ops : CMath α) (k : kalman_t α) (state_idx : ℤ)
    (duration_samples : α) : kalman_t α × Bool :=
  if h : state_idx < 0 ∨ 5 ≤ state_idx then (k, false)
  else if duration_samples ≤ 0 then (k, false)
  else
    let j : Fin 5 := ⟨state_idx.toNat, by omega⟩
    let z := ops.log duration_samples
    let innovation := z - k.x j
    if |innovation| > k.innovation_gate then (k, false)
    else (apply_bounds ops (kalman_joseph k j innovation), true)

/-- `kalman_get_duration`. -/
def kalman_get_duration (ops : CMath α) (k : kalman_t α) (state_idx : ℤ) : α :=
  if h : state_idx < 0 ∨ 5 ≤ state_idx then 0
  else ops.exp (k.x ⟨state_idx.toNat, by omega⟩)

/-- `kalman_get_threshold` (callers always pass valid indices). -/
def kalman_get_threshold (ops : CMath α) (k : kalman_t α) (a b : Fin 5) : α :=
  ops.exp ((k.x a + k.x b) / 2)

/-- `kalman_get_wpm`. -/
def kalman_get_wpm (ops : CMath α) (k : kalman_t α) : α :=
  let dit_samples := ops.exp (k.x 0)
  let dit_s := dit_samples / ((k.sample_rate : ℤ) : α)
  if dit_s ≤ 0 then 20 else (6 / 5 : α) / dit_s

/-! ## timing.c -/

/-- State of `timing_t`.  `mode` is `0` for EMA, `1` for Kalman; the C
`*_ratio` field names are shortened to `min_element_frac`,
`char_pause_mul`, `word_pause_mul`. -/
structure timing_t (α : Type) where
  mode : ℤ
  sample_rate : ℤ
  kalman : kalman_t α
  avg_dit : α
  ema_alpha : α
  dit_dah_threshold : α
  char_pause_mul : α
  word_pause_mul : α
  min_element_frac : α
  min_element_abs : ℤ
  on_dur : ℤ
  off_dur : ℤ
  prev_on : Bool
  seen_signal : Bool
  element_count : ℤ

/-- `timing_init`. -/
def timing_init (ops : CMath α) (mode : ℤ) (sample_rate : ℤ)
    (initial_wpm min_wpm max_wpm min_element_frac min_element_s : α) : timing_t α :=
  let dit_s := (6 / 5 : α) / initial_wpm
  { mode := mode
    sample_rate := sample_rate
    kalman := if mode = 1 then kalman_init ops sample_rate initial_wpm min_wpm max_wpm
              else zeroKalman
    avg_dit := dit_s * ((sample_rate : ℤ) : α)
    ema_alpha := 1 / 10
    dit_dah_threshold := 2
    char_pause_mul := 5 / 2
    word_pause_mul := 6
    min_element_frac := min_element_frac
    min_element_abs := ops.toInt (min_element_s * ((sample_rate : ℤ) : α))
    on_dur := 0, off_dur := 0, prev_on := false, seen_signal := false,
    element_count := 0 }

/-- `classify_signal_kalman`. -/
def classify_signal_kalman (ops : CMath α) (t : timing_t α) (dur : ℤ) :
    Char × timing_t α :=
  let avg_dit := kalman_get_duration ops t.kalman 0
  let min_dur0 := ops.toInt (avg_dit * t.min_element_frac)
  let min_dur := if min_dur0 < t.min_element_abs then t.min_element_abs else min_dur0
  if dur < min_dur then (ELEM_NONE, t)
  else
    let t := { t with element_count := t.element_count + 1 }
    let warm := t.element_count > 8
    let thresh := kalman_get_threshold ops t.kalman 0 1
    if ((dur : ℤ) : α) < thresh then
      let k1 := if warm then (kalman_update ops t.kalman 0 ((dur : ℤ) : α)).1 else t.kalman
      (ELEM_DIT, { t with kalman := k1 })
    else
      let k1 := if warm then (kalman_update ops t.kalman 1 ((dur : ℤ) : α)).1 else t.kalman
      (ELEM_DAH, { t with kalman := k1 })

/-- `classify_signal_ema`. -/
def classify_signal_ema (ops : CMath α) (t : timing_t α) (dur : ℤ) :
    Char × timing_t α :=
  let min_dur0 := ops.toInt (t.avg_dit * t.min_element_frac)
  let min_dur := if min_dur0 < t.min_element_abs then t.min_element_abs else min_dur0
  if dur < min_dur then (ELEM_NONE, t)
  else
    let thresh := t.avg_dit * t.dit_dah_threshold
    if ((dur : ℤ) : α) < thresh then
      (ELEM_DIT,
       { t with avg_dit := (1 - t.ema_alpha) * t.avg_dit + t.ema_alpha * ((dur : ℤ) : α) })
    else (ELEM_DAH, t)

/-- `classify_gap_kalman`. -/
def classify_gap_kalman (ops : CMath α) (t : timing_t α) (dur : ℤ) :
    Char × timing_t α :=
  let warm := t.element_count > 8
  let word_thresh := kalman_get_threshold ops t.kalman 3 4
  let char_thresh := kalman_get_threshold ops t.kalman 2 3
  if ((dur : ℤ) : α) ≥ word_thresh then
    let k1 := if warm then (kalman_update ops t.kalman 4 ((dur : ℤ) : α)).1 else t.kalman
    (ELEM_WORD, { t with kalman := k1 })
  else if ((dur : ℤ) : α) ≥ char_thresh then
    let k1 := if warm then (kalman_update ops t.kalman 3 ((dur : ℤ) : α)).1 else t.kalman
    (ELEM_CHAR, { t with kalman := k1 })
  else
    let k1 := if warm then (kalman_update ops t.kalman 2 ((dur : ℤ) : α)).1 else t.kalman
    (ELEM_NONE, { t with kalman := k1 })

/-- `classify_gap_ema`. -/
def classify_gap_ema (t : timing_t α) (dur : ℤ) : Char :=
  let word_thresh := t.avg_dit * t.word_pause_mul
  let char_thresh := t.avg_dit * t.char_pause_mul
  if ((dur : ℤ) : α) ≥ word_thresh then ELEM_WORD
  else if ((dur : ℤ) : α) ≥ char_thresh then ELEM_CHAR
  else ELEM_NONE

/-- `timing_process_sample`: returns the element code and the new state. -/
def timing_process_sample (ops : CMath α) (t0 : timing_t α) (onb : Bool) :
    Char × timing_t α :=
  let t := if onb then { t0 with on_dur := t0.on_dur + 1 }
           else { t0 with off_dur := t0.off_dur + 1 }
  let mark :=
    if t.prev_on = true ∧ onb = false then
      let p := if t.mode = 1 then classify_signal_kalman ops t t.on_dur
               else classify_signal_ema ops t t.on_dur
      (p.1, { p.2 with on_dur := 0, seen_signal := true })
    else (ELEM_NONE, t)
  let gap :=
    if mark.2.prev_on = false ∧ onb = true then
      if mark.2.seen_signal then
        let p := if mark.2.mode = 1 then classify_gap_kalman ops mark.2 mark.2.off_dur
                 else (classify_gap_ema mark.2 mark.2.off_dur, mark.2)
        let r := if p.1 ≠ ELEM_NONE then p.1 else mark.1
        (r, { p.2 with off_dur := 0 })
      else (mark.1, { mark.2 with off_dur := 0 })
    else mark
  (gap.1, { gap.2 with prev_on := onb })

/-- `timing_finalize`. -/
def timing_finalize (ops : CMath α) (t : timing_t α) : Char × timing_t α :=
  if t.on_dur > 0 ∧ t.seen_signal then
    let p := if t.mode = 1 then classify_signal_kalman ops t t.on_dur
             else classify_signal_ema ops t t.on_dur
    (p.1, { p.2 with on_dur := 0 })
  else (ELEM_NONE, t)

/-! ## multipass_avg.c -/

/-- State of `multipass_avg_t`: the 8 per-pass ring buffers hold their
valid prefix (`buf_len` is the list length). -/
structure multipass_avg_t (α : Type) where
  n_passes : ℤ
  window_size : ℤ
  buffers : List (List α)
  running_sum : List α

/-- The all-zero `multipass_avg_t`, as produced by `memset`. -/
def zeroMultipass : multipass_avg_t α :=
  { n_passes := 0, window_size := 0,
    buffers := List.replicate 8 [], running_sum := List.replicate 8 0 }

/-- `multipass_init` (`MULTIPASS_MAX_PASSES = 8`, `MULTIPASS_MAX_WINDOW = 256`). -/
def multipass_init (n_passes window_size : ℤ) : multipass_avg_t α :=
  let np0 := if n_passes < 1 then 1 else n_passes
  let np := if np0 > 8 then 8 else np0
  let ws0 := if window_size < 3 then 3 else window_size
  let ws1 := if ws0 > 256 then 256 else ws0
  let ws := if ws1 % 2 = 0 then ws1 + 1 else ws1
  { zeroMultipass with n_passes := np, window_size := ws }

/-- The per-sample loop of one pass of `multipass_process`.  The C works
in place, so reads of `data[oldest_idx]` and `data[0]` past iteration `0`
see already-smoothed values: `done` is the processed prefix, `rest` the
yet-unprocessed samples. -/
def mp_pass_go (w : ℤ) (inv_w : α) (buf : List α) (done rest : List α) (sum : α) :
    List α × α :=
  match rest with
  | [] => (done, sum)
  | x :: rest1 =>
    let sum1 := sum + x
    let oldest := (done.length : ℤ) - w
    let sum2 :=
      if 0 ≤ oldest then sum1 - done.getD oldest.toNat 0
      else
        let buf_idx := (buf.length : ℤ) + oldest
        if 0 ≤ buf_idx ∧ buf_idx < (buf.length : ℤ) then sum1 - buf.getD buf_idx.toNat 0
        else sum1 - done.headD x
    mp_pass_go w inv_w buf (done ++ [sum2 * inv_w]) rest1 sum2

/-- One pass of `multipass_process` over one chunk: returns the smoothed
chunk, the saved tail buffer for the next chunk, and the running sum. -/
def mp_pass (w : ℤ) (buf : List α) (sum0 : α) (data : List α) :
    List α × List α × α :=
  let inv_w := 1 / ((w : ℤ) : α)
  let sumInit := if buf.length = 0 ∧ data.length ≠ 0
                 then data.headD 0 * (((w : ℤ) : α) - 1) else sum0
  let p := mp_pass_go w inv_w buf [] data sumInit
  let out := p.1
  let n : ℤ := data.length
  let save_n0 := w - 1
  let save_n1 := if save_n0 > n then n else save_n0
  let save_n := if save_n1 > 256 then 256 else save_n1
  let buf1 :=
    if n ≥ w - 1 then out.drop (out.length - save_n.toNat)
    else
      let keep0 := (buf.length : ℤ) - n
      let keep := if keep0 < 0 then 0 else keep0
      let kept := buf.drop (buf.length - keep.toNat)
      let appended := kept ++ out.take (256 - keep.toNat)
      let bl0 := keep + n
      let bl := if bl0 > save_n then save_n else bl0
      appended.take bl.toNat
  (out, buf1, p.2)

/-- `multipass_process`: cascade the passes in place over one chunk. -/
def multipass_process (mp : multipass_avg_t α) (data : List α) :
    List α × multipass_avg_t α :=
  (List.range mp.n_passes.toNat).foldl
    (fun st pass =>
      let q := mp_pass st.2.window_size (st.2.buffers.getD pass [])
                 (st.2.running_sum.getD pass 0) st.1
      (q.1, { st.2 with buffers := st.2.buffers.set pass q.2.1,
                        running_sum := st.2.running_sum.set pass q.2.2 }))
    (data, mp)

/-! ## iir_filter.c -/

/-- One second-order section of `iir_section_t` (`a0` is stored but always
`1`). -/
structure iir_section_t (α : Type) where
  b0 : α
  b1 : α
  b2 : α
  a0 : α
  a1 : α
  a2 : α
  z0 : α
  z1 : α

/-- `iir_filter_t`: the section list has length `n_sections`. -/
structure iir_filter_t (α : Type) where
  sections : List (iir_section_t α)

/-- The per-sample Direct Form II Transposed loop of one section. -/
def iir_section_go (b0 b1 b2 a1 a2 : α) (z0 z1 : α) (data : List α) :
    List α × α × α :=
  match data with
  | [] => ([], z0, z1)
  | x :: rest =>
    let y := b0 * x + z0
    let z0n := b1 * x - a1 * y + z1
    let z1n := b2 * x - a2 * y
    let p := iir_section_go b0 b1 b2 a1 a2 z0n z1n rest
    (y :: p.1, p.2)

/-- `iir_filter_process`: run each section over the whole chunk in turn. -/
def iir_filter_process (f : iir_filter_t α) (data : List α) :
    List α × iir_filter_t α :=
  let q := f.sections.foldl
    (fun (st : List α × List (iir_section_t α)) sec =>
      let p := iir_section_go sec.b0 sec.b1 sec.b2 sec.a1 sec.a2 sec.z0 sec.z1 st.1
      (p.1, st.2 ++ [{ sec with z0 := p.2.1, z1 := p.2.2 }]))
    (data, [])
  (q.1, ⟨q.2⟩)

/-- `butter_analog_poles`: prototype poles as `(re, im)` pairs. -/
def butter_analog_poles (ops : CMath α) (order : ℤ) : List (α × α) :=
  (List.range order.toNat).map (fun k =>
    let angle := ops.pi * ((2 * (k : ℤ) + order + 1 : ℤ) : α) / ((2 * order : ℤ) : α)
    (ops.cos angle, ops.sin angle))

/-- `bilinear_transform`. -/
def bilinear_transform (s_re s_im fs : α) : α × α :=
  let t := 1 / (2 * fs)
  let num_re := 1 + s_re * t
  let num_im := s_im * t
  let den_re := 1 - s_re * t
  let den_im := -(s_im * t)
  let den_mag2 := den_re * den_re + den_im * den_im
  ((num_re * den_re + num_im * den_im) / den_mag2,
   (num_im * den_re - num_re * den_im) / den_mag2)

/-- `make_sos_from_pole_pair`. -/
def make_sos_from_pole_pair (pz_re pz_im zz_re zz_im gain : α) : iir_section_t α :=
  { b0 := gain, b1 := gain * (-2 * zz_re), b2 := gain * (zz_re * zz_re + zz_im * zz_im),
    a0 := 1, a1 := -2 * pz_re, a2 := pz_re * pz_re + pz_im * pz_im,
    z0 := 0, z1 := 0 }

/-- `make_sos_from_real_pole`. -/
def make_sos_from_real_pole (pz zz gain : α) : iir_section_t α :=
  { b0 := gain, b1 := gain * (-zz), b2 := 0,
    a0 := 1, a1 := -pz, a2 := 0, z0 := 0, z1 := 0 }

/-- Apply the DC gain-normalisation correction of `iir_design_lowpass`
to the first section. -/
def iir_normalize_dc (secs : List (iir_section_t α)) : List (iir_section_t α) :=
  let total_gain := secs.foldl
    (fun g sec =>
      let num := sec.b0 + sec.b1 + sec.b2
      let den := sec.a0 + sec.a1 + sec.a2
      if |den| > 1 / 1000000000000 then g * (num / den) else g)
    1
  if |total_gain| > 1 / 1000000000000 then
    match secs with
    | [] => []
    | s0 :: rest =>
      { s0 with b0 := s0.b0 * (1 / total_gain), b1 := s0.b1 * (1 / total_gain),
                b2 := s0.b2 * (1 / total_gain) } :: rest
  else secs

/-- `iir_design_lowpass`. -/
def iir_design_lowpass (ops : CMath α) (order : ℤ) (cutoff_hz fs : α) :
    iir_filter_t α :=
  if order < 1 ∨ order > 16 then ⟨[]⟩
  else
    let wn0 := cutoff_hz / (fs / 2)
    let wn1 := if wn0 ≥ 1 then 999 / 1000 else wn0
    let wn := if wn1 ≤ 0 then 1 / 1000 else wn1
    let warped := 2 * fs * ops.tan (ops.pi * wn / 2)
    let ap := (butter_analog_poles ops order).map (fun p => (p.1 * warped, p.2 * warped))
    let pairSecs := (List.range (order / 2).toNat).map (fun (k : ℕ) =>
      let i := k
      let j := (order - 1 - (k : ℤ)).toNat
      let pz1 := bilinear_transform (ap.getD i (0, 0)).1 (ap.getD i (0, 0)).2 fs
      let pz2 := bilinear_transform (ap.getD j (0, 0)).1 (ap.getD j (0, 0)).2 fs
      let _ := pz2
      make_sos_from_pole_pair pz1.1 pz1.2 (-1) 0 1)
    let secs :=
      if order % 2 = 1 then
        let mid := (order / 2).toNat
        let pz := bilinear_transform (ap.getD mid (0, 0)).1 (ap.getD mid (0, 0)).2 fs
        pairSecs ++ [make_sos_from_real_pole pz.1 (-1) 1]
      else pairSecs
    ⟨iir_normalize_dc secs⟩

/-- The per-pole body of the `iir_design_bandpass` loop: the two sections
produced from one prototype pole (`IIR_MAX_SECTIONS` capping is applied by
the caller). -/
def bp_sections_of_pole (ops : CMath α) (bw w0 fs : α) (p : α × α) :
    List (iir_section_t α) :=
  let half_bw_re := p.1 * bw / 2
  let half_bw_im := p.2 * bw / 2
  let sq_re0 := half_bw_re * half_bw_re - half_bw_im * half_bw_im
  let sq_im := 2 * half_bw_re * half_bw_im
  let sq_re := sq_re0 - w0 * w0
  let mag := ops.sqrt (sq_re * sq_re + sq_im * sq_im)
  let phase := ops.atan2 sq_im sq_re
  let sqrt_mag := ops.sqrt mag
  let sqrt_re := sqrt_mag * ops.cos (phase / 2)
  let sqrt_im := sqrt_mag * ops.sin (phase / 2)
  let s1 := (half_bw_re + sqrt_re, half_bw_im + sqrt_im)
  let s2 := (half_bw_re - sqrt_re, half_bw_im - sqrt_im)
  let z1 := bilinear_transform s1.1 s1.2 fs
  let z2 := bilinear_transform s2.1 s2.2 fs
  [ { b0 := 1, b1 := 0, b2 := -1, a0 := 1, a1 := -2 * z1.1,
      a2 := z1.1 * z1.1 + z1.2 * z1.2, z0 := 0, z1 := 0 },
    { b0 := 1, b1 := 0, b2 := -1, a0 := 1, a1 := -2 * z2.1,
      a2 := z2.1 * z2.1 + z2.2 * z2.2, z0 := 0, z1 := 0 } ]

/-- The band-centre gain normalisation of `iir_design_bandpass`. -/
def iir_normalize_bp (ops : CMath α) (low_hz high_hz fs : α)
    (secs : List (iir_section_t α)) : List (iir_section_t α) :=
  let wc := 2 * ops.pi * (low_hz + high_hz) / 2 / fs
  let cos_wc := ops.cos wc
  let sin_wc := ops.sin wc
  let tg := secs.foldl
    (fun (g : α × α) sec =>
      let cos2 := cos_wc * cos_wc - sin_wc * sin_wc
      let sin2 := 2 * sin_wc * cos_wc
      let nr := sec.b0 + sec.b1 * cos_wc + sec.b2 * cos2
      let ni := -(sec.b1 * sin_wc) - sec.b2 * sin2
      let dr := sec.a0 + sec.a1 * cos_wc + sec.a2 * cos2
      let di := -(sec.a1 * sin_wc) - sec.a2 * sin2
      let dm2 := dr * dr + di * di
      if dm2 < 1 / 100000000000000000000 then g
      else
        let h_re := (nr * dr + ni * di) / dm2
        let h_im := (ni * dr - nr * di) / dm2
        (g.1 * h_re - g.2 * h_im, g.1 * h_im + g.2 * h_re))
    (1, 0)
  let gain_mag := ops.sqrt (tg.1 * tg.1 + tg.2 * tg.2)
  if gain_mag > 1 / 1000000000000 then
    match secs with
    | [] => []
    | s0 :: rest =>
      { s0 with b0 := s0.b0 * (1 / gain_mag), b1 := s0.b1 * (1 / gain_mag),
                b2 := s0.b2 * (1 / gain_mag) } :: rest
  else secs

/-- `iir_design_bandpass` (`IIR_MAX_SECTIONS = 8`). -/
def iir_design_bandpass (ops : CMath α) (order : ℤ) (low_hz high_hz fs : α) :
    iir_filter_t α :=
  if order < 1 then ⟨[]⟩
  else
    let nyquist := fs / 2
    let wn_low0 := low_hz / nyquist
    let wn_high0 := high_hz / nyquist
    let wn_low := if wn_low0 ≤ 0 then 1 / 1000 else wn_low0
    let wn_high := if wn_high0 ≥ 1 then 999 / 1000 else wn_high0
    if wn_low ≥ wn_high then ⟨[]⟩
    else
      let w_low := 2 * fs * ops.tan (ops.pi * wn_low / 2)
      let w_high := 2 * fs * ops.tan (ops.pi * wn_high / 2)
      let bw := w_high - w_low
      let w0 := ops.sqrt (w_low * w_high)
      let all := ((butter_analog_poles ops order).map
        (bp_sections_of_pole ops bw w0 fs)).flatten
      let secs := all.take 8
      ⟨iir_normalize_bp ops low_hz high_hz fs secs⟩

/-! ## envelope.c -/

/-- State of `envelope_t`.  `mode` is `0` for IIR, `1` for multipass. -/
structure envelope_t (α : Type) where
  lpf : iir_filter_t α
  mpf : multipass_avg_t α
  mode : ℤ
  peak_level : α
  threshold_on : α
  threshold_off : α
  prev_state : Bool

/-- `envelope_init`. -/
def envelope_init (ops : CMath α) (sample_rate : ℤ) (window_s thresh_on thresh_off : α)
    (mode : ℤ) (mp_passes : ℤ) : envelope_t α :=
  let base : envelope_t α :=
    { lpf := ⟨[]⟩, mpf := zeroMultipass, mode := mode, peak_level := 0,
      threshold_on := thresh_on, threshold_off := thresh_off, prev_state := false }
  if mode = 1 then
    let cutoff := 1 / (2 * window_s)
    let window_f := ((sample_rate : ℤ) : α) / (cutoff * ops.pi * ops.sqrt ((mp_passes : ℤ) : α))
    let window0 := ops.toInt window_f
    let window1 := if window0 < 5 then 5 else window0
    let window := if window1 % 2 = 0 then window1 + 1 else window1
    { base with mpf := multipass_init mp_passes window }
  else
    let cutoff_hz := 1 / (2 * window_s)
    { base with lpf := iir_design_lowpass ops 2 cutoff_hz ((sample_rate : ℤ) : α) }

/-- The hysteresis loop of `envelope_process` (step 4). -/
def envelope_hysteresis (on_thr off_thr : α) (state : Bool) (tmp : List α) :
    List Bool × Bool :=
  match tmp with
  | [] => ([], state)
  | x :: rest =>
    let s := if state then decide (x ≥ off_thr) else decide (x ≥ on_thr)
    let p := envelope_hysteresis on_thr off_thr s rest
    (s :: p.1, p.2)

/-- One ≤4096-sample sub-chunk of `envelope_process`. -/
def envelope_chunk (env : envelope_t α) (chunk : List α) :
    List Bool × envelope_t α :=
  let tmp0 := chunk.map (fun x => |x|)
  let q : List α × envelope_t α :=
    if env.mode = 1 then
      let p := multipass_process env.mpf tmp0
      (p.1, { env with mpf := p.2 })
    else
      let p := iir_filter_process env.lpf tmp0
      (p.1, { env with lpf := p.2 })
  let tmp := q.1
  let env1 := q.2
  let chunk_peak := tmp.foldl (fun m x => if x > m then x else m) (0 : α)
  let peak := if chunk_peak > env1.peak_level then chunk_peak
              else (199 / 200 : α) * env1.peak_level + (1 / 200 : α) * chunk_peak
  let on_thr0 := peak * env1.threshold_on
  let off_thr0 := peak * env1.threshold_off
  let on_thr := if on_thr0 < 1 / 10000000000 then 1 / 10000000000 else on_thr0
  let off_thr := if off_thr0 < 1 / 10000000000 then 1 / 10000000000 else off_thr0
  let h := envelope_hysteresis on_thr off_thr env1.prev_state tmp
  (h.1, { env1 with peak_level := peak, prev_state := h.2 })

/-- The `while (processed < n)` loop of `envelope_process`, with an
explicit iteration budget: each iteration consumes at least one sample, so
`audio.length` iterations always suffice and the `0` case is unreachable
from `envelope_process`. -/
def envelope_go (env : envelope_t α) (fuel : ℕ) (audio : List α) :
    List Bool × envelope_t α :=
  match fuel with
  | 0 => ([], env)
  | fuel + 1 =>
    if audio = [] then ([], env)
    else
      let p := envelope_chunk env (audio.take 4096)
      let q := envelope_go p.2 fuel (audio.drop 4096)
      (p.1 ++ q.1, q.2)

/-- `envelope_process`: loop over ≤4096-sample sub-chunks. -/
def envelope_process (env : envelope_t α) (audio : List α) :
    List Bool × envelope_t α :=
  envelope_go env audio.length audio

/-! ## cw_decoder.c -/

/-- `cw_config_t`.  Enum fields hold the C enum values
(`CW_TIMING_EMA = 0`, `CW_TIMING_KALMAN = 1`, `CW_ENVELOPE_IIR = 0`,
`CW_ENVELOPE_MULTIPASS = 1`). -/
structure cw_config_t (α : Type) where
  sample_rate : ℤ
  center_freq : α
  bandwidth : α
  threshold_on : α
  threshold_off : α
  timing_mode : ℤ
  envelope_mode : ℤ
  initial_wpm : α
  min_wpm : α
  max_wpm : α
  envelope_window_s : α
  min_element_frac : α
  min_element_s : α
  use_hmm : ℤ
  min_word_length : ℤ
  multipass_passes : ℤ

/-- State of `cw_decoder_t` (`MAX_PATTERN = 16`, so the pattern holds at
most 15 elements). -/
structure cw_decoder_t (α : Type) where
  cfg : cw_config_t α
  bandpass : iir_filter_t α
  use_bandpass : Bool
  envelope : envelope_t α
  timing : timing_t α
  pattern : List Char
  output : output_filter_t

/-- `cw_decoder_create` (allocation always succeeds in the model). -/
def cw_decoder_create (ops : CMath α) (cfg : cw_config_t α) : cw_decoder_t α :=
  let bp : iir_filter_t α × Bool :=
    if cfg.bandwidth > 0 then
      let low0 := cfg.center_freq - cfg.bandwidth / 2
      let high0 := cfg.center_freq + cfg.bandwidth / 2
      let low := if low0 < 1 then 1 else low0
      let nyquist := ((cfg.sample_rate : ℤ) : α) / 2
      let high := if high0 ≥ nyquist then nyquist - 1 else high0
      if low < high then
        (iir_design_bandpass ops 2 low high ((cfg.sample_rate : ℤ) : α), true)
      else (⟨[]⟩, false)
    else (⟨[]⟩, false)
  { cfg := cfg
    bandpass := bp.1
    use_bandpass := bp.2
    envelope := envelope_init ops cfg.sample_rate cfg.envelope_window_s
      cfg.threshold_on cfg.threshold_off
      (if cfg.envelope_mode = 1 then 1 else 0) cfg.multipass_passes
    timing := timing_init ops (if cfg.timing_mode = 1 then 1 else 0) cfg.sample_rate
      cfg.initial_wpm cfg.min_wpm cfg.max_wpm cfg.min_element_frac cfg.min_element_s
    pattern := []
    output := output_filter_init cfg.min_word_length }

/-- `pattern_feed`: buffer dits/dahs, emit a looked-up character (and a
space on a word gap) on gap elements. -/
def pattern_feed (dec : cw_decoder_t α) (elem : Char) (out_len : ℤ) :
    List Char × cw_decoder_t α :=
  if elem = ELEM_DIT ∨ elem = ELEM_DAH then
    ([], if dec.pattern.length < 15 then { dec with pattern := dec.pattern ++ [elem] }
         else dec)
  else if elem = ELEM_CHAR ∨ elem = ELEM_WORD then
    let p : List Char × cw_decoder_t α :=
      if dec.pattern.length > 0 then
        (morse_lookup_merged dec.pattern out_len, { dec with pattern := [] })
      else ([], dec)
    if elem = ELEM_WORD ∧ (p.1.length : ℤ) < out_len then (p.1 ++ [' '], p.2)
    else p
  else ([], dec)

/-- `pattern_flush`. -/
def pattern_flush (dec : cw_decoder_t α) (out_len : ℤ) :
    List Char × cw_decoder_t α :=
  if dec.pattern.length ≤ 0 then ([], dec)
  else (morse_lookup_merged dec.pattern out_len, { dec with pattern := [] })

/-- The per-sample loop body of `cw_decoder_process` (steps 3–4): feed one
element through the pattern decoder and the output filter. -/
def cw_elem_out (dec : cw_decoder_t α) (elem : Char) (budget : ℤ) :
    List Char × cw_decoder_t α :=
  if elem ≠ ELEM_NONE then
    let p := pattern_feed dec elem 4
    if p.1.length > 0 then
      let q := output_filter_feed p.2.output p.1 budget
      (q.1, { p.2 with output := q.2 })
    else ([], p.2)
  else ([], dec)

/-- The sample loop of `cw_decoder_process` over one chunk's on/off
decisions, with the `total_written < out_len` guard. -/
def cw_sample_loop (ops : CMath α) (dec : cw_decoder_t α) (ons : List Bool)
    (out_len written : ℤ) : List Char × cw_decoder_t α :=
  match ons with
  | [] => ([], dec)
  | onb :: rest =>
    if written < out_len then
      let t := timing_process_sample ops dec.timing onb
      let e := cw_elem_out { dec with timing := t.2 } t.1 (out_len - written)
      let r := cw_sample_loop ops e.2 rest out_len (written + e.1.length)
      (e.1 ++ r.1, r.2)
    else ([], dec)

/-- The ≤4096-sample segment loop of `cw_decoder_process`, with an
explicit iteration budget: each iteration consumes at least one sample, so
`audio.length` iterations always suffice and the `0` case is unreachable
from `cw_decoder_process`. -/
def cw_process_go (ops : CMath α) (dec : cw_decoder_t α) (fuel : ℕ)
    (audio : List α) (out_len written : ℤ) : List Char × cw_decoder_t α :=
  match fuel with
  | 0 => ([], dec)
  | fuel + 1 =>
    if audio = [] then ([], dec)
    else
      if written < out_len then
        let chunk := audio.take 4096
        let w : List α × cw_decoder_t α :=
          if dec.use_bandpass then
            let p := iir_filter_process dec.bandpass chunk
            (p.1, { dec with bandpass := p.2 })
          else (chunk, dec)
        let ev := envelope_process w.2.envelope w.1
        let dec1 := { w.2 with envelope := ev.2 }
        let s := cw_sample_loop ops dec1 ev.1 out_len written
        let r := cw_process_go ops s.2 fuel (audio.drop 4096) out_len
          (written + s.1.length)
        (s.1 ++ r.1, r.2)
      else ([], dec)

/-- `cw_decoder_process`. -/
def cw_decoder_process (ops : CMath α) (dec : cw_decoder_t α) (audio : List α)
    (out_len : ℤ) : List Char × cw_decoder_t α :=
  if audio.length = 0 ∨ out_len ≤ 0 then ([], dec)
  else cw_process_go ops dec audio.length audio out_len 0

/-- `cw_decoder_finalize`.  The pending-element block is the same code as
the process loop body, `cw_elem_out`, at `written = 0`. -/
def cw_decoder_finalize (ops : CMath α) (dec : cw_decoder_t α) (out_len : ℤ) :
    List Char × cw_decoder_t α :=
  let t := timing_finalize ops dec.timing
  let o1 := cw_elem_out { dec with timing := t.2 } t.1 (out_len - 0)
  let w1 : ℤ := o1.1.length
  let pf := pattern_flush o1.2 4
  let o2 : List Char × cw_decoder_t α :=
    if pf.1.length > 0 then
      let q := output_filter_feed pf.2.output pf.1 (out_len - w1)
      (q.1, { pf.2 with output := q.2 })
    else ([], pf.2)
  let w2 : ℤ := w1 + o2.1.length
  let fl := output_filter_flush o2.2.output (out_len - w2)
  (o1.1 ++ o2.1 ++ fl.1, { o2.2 with output := fl.2 })

/-- Feed a sequence of chunks through `cw_decoder_process` on a decoder
freshly created from `cfg`, then `cw_decoder_finalize`; the concatenated
output bytes.  Every call gets the same output capacity `out_len`. -/
def cw_decode_chunked (ops : CMath α) (cfg : cw_config_t α)
    (chunks : List (List α)) (out_len : ℤ) : List Char :=
  let start := cw_decoder_create ops cfg
  let p := chunks.foldl
    (fun (st : List Char × cw_decoder_t α) ch =>
      let q := cw_decoder_process ops st.2 ch out_len
      (st.1 ++ q.1, q.2))
    ([], start)
  p.1 ++ (cw_decoder_finalize ops p.2 out_len).1

/-! ## Specification-side definitions for the merged lookup -/

/-- A split position that the loop of `morse_lookup_merged` accepts:
both substring lookups succeed (return a character other than `?`). -/
def split_ok (pat : List Char) (p : ℕ) : Prop :=
  morse_lookup (pat.take p) ≠ '?' ∧ morse_lookup (pat.drop p) ≠ '?'

instance split_ok_dec (pat : List Char) (p : ℕ) : Decidable (split_ok pat p) := by
  unfold split_ok
  infer_instance

/-- A valid split in the sense of the specification: an interior position
whose two substrings both look up successfully. -/
def valid_split (pat : List Char) (p : ℕ) : Prop :=
  1 ≤ p ∧ p < pat.length ∧ split_ok pat p

instance valid_split_dec (pat : List Char) (p : ℕ) : Decidable (valid_split pat p) := by
  unfold valid_split
  infer_instance

/-- The weight of a split: `weight(left) + weight(right)`. -/
def split_weight (pat : List Char) (p : ℕ) : ℤ :=
  morse_char_weight (morse_lookup (pat.take p)) +
    morse_char_weight (morse_lookup (pat.drop p))

/-- Every character weight is at least `1` (table weights are positive and
the default is `1`). -/
lemma one_le_morse_char_weight (c : Char) : 1 ≤ morse_char_weight c := by
  unfold morse_char_weight
  cases hf : MORSE_TABLE.find? (fun e => e.2.1 = c) with
  | none => exact le_refl 1
  | some e =>
    have he : e ∈ MORSE_TABLE := List.mem_of_find?_eq_some hf
    have hall : ∀ e ∈ MORSE_TABLE, 1 ≤ e.2.2 := by decide
    exact hall e he

/-- Characterisation of the best-split fold: either no listed position is
acceptable with weight above the accumulator and the accumulator survives,
or the result is the first listed position attaining the maximal weight. -/
lemma morse_fold_char (pat : List Char) (L : List ℕ) (hL : L.Pairwise (· < ·))
    (acc : ℤ × Char × Char) :
    (L.foldl (morse_split_step pat) acc = acc ∧
      ∀ q ∈ L, split_ok pat q → split_weight pat q ≤ acc.1) ∨
    (∃ p ∈ L, split_ok pat p ∧
      L.foldl (morse_split_step pat) acc =
        (split_weight pat p, morse_lookup (pat.take p), morse_lookup (pat.drop p)) ∧
      acc.1 < split_weight pat p ∧
      (∀ q ∈ L, split_ok pat q → split_weight pat q ≤ split_weight pat p) ∧
      (∀ q ∈ L, split_ok pat q → q < p → split_weight pat q < split_weight pat p)) := by
  induction L generalizing acc with
  | nil => exact Or.inl ⟨rfl, by simp⟩
  | cons a L ih =>
    have hpw : ∀ q ∈ L, a < q := fun q hq => (List.pairwise_cons.1 hL).1 q hq
    have hL' : L.Pairwise (· < ·) := (List.pairwise_cons.1 hL).2
    by_cases hok : split_ok pat a
    · by_cases hgt : split_weight pat a > acc.1
      · have hstep : morse_split_step pat acc a =
            (split_weight pat a, morse_lookup (pat.take a), morse_lookup (pat.drop a)) := by
          simp only [morse_split_step]
          rw [if_pos (show morse_lookup (pat.take a) ≠ '?' ∧
                morse_lookup (pat.drop a) ≠ '?' from ⟨hok.1, hok.2⟩),
              if_pos (show morse_char_weight (morse_lookup (pat.take a)) +
                morse_char_weight (morse_lookup (pat.drop a)) > acc.1 from hgt)]
          rfl
        rcases ih hL'
            (split_weight pat a, morse_lookup (pat.take a), morse_lookup (pat.drop a)) with
          ⟨heq, hmax⟩ | ⟨p, hpL, hpok, heq, hlt, hmax, hfirst⟩
        · refine Or.inr ⟨a, List.mem_cons_self a L, hok, ?_, hgt, ?_, ?_⟩
          · simpa [hstep] using heq
          · intro q hq hq2
            rcases List.mem_cons.1 hq with rfl | hq
            · exact le_refl _
            · exact hmax q hq hq2
          · intro q hq hq2 hqa
            rcases List.mem_cons.1 hq with rfl | hq
            · omega
            · exact absurd hqa (by have := hpw q hq; omega)
        · refine Or.inr ⟨p, List.mem_cons_of_mem a hpL, hpok, ?_, ?_, ?_, ?_⟩
          · simpa [hstep] using heq
          · omega
          · intro q hq hq2
            rcases List.mem_cons.1 hq with rfl | hq
            · omega
            · exact hmax q hq hq2
          · intro q hq hq2 hqp
            rcases List.mem_cons.1 hq with rfl | hq
            · omega
            · exact hfirst q hq hq2 hqp
      · have hstep : morse_split_step pat acc a = acc := by
          simp only [morse_split_step]
          rw [if_pos (show morse_lookup (pat.take a) ≠ '?' ∧
                morse_lookup (pat.drop a) ≠ '?' from ⟨hok.1, hok.2⟩),
              if_neg (show ¬ (morse_char_weight (morse_lookup (pat.take a)) +
                morse_char_weight (morse_lookup (pat.drop a)) > acc.1) from hgt)]
        rcases ih hL' acc with ⟨heq, hmax⟩ | ⟨p, hpL, hpok, heq, hlt, hmax, hfirst⟩
        · refine Or.inl ⟨by simpa [hstep] using heq, ?_⟩
          intro q hq hq2
          rcases List.mem_cons.1 hq with rfl | hq
          · omega
          · exact hmax q hq hq2
        · refine Or.inr ⟨p, List.mem_cons_of_mem a hpL, hpok, by simpa [hstep] using heq,
            hlt, ?_, ?_⟩
          · intro q hq hq2
            rcases List.mem_cons.1 hq with rfl | hq
            · omega
            · exact hmax q hq hq2
          · intro q hq hq2 hqp
            rcases List.mem_cons.1 hq with rfl | hq
            · omega
            · exact hfirst q hq hq2 hqp
    · have hstep : morse_split_step pat acc a = acc := by
        simp only [morse_split_step]
        rw [if_neg (show ¬ (morse_lookup (pat.take a) ≠ '?' ∧
              morse_lookup (pat.drop a) ≠ '?') from fun hc => hok ⟨hc.1, hc.2⟩)]
      rcases ih hL' acc with ⟨heq, hmax⟩ | ⟨p, hpL, hpok, heq, hlt, hmax, hfirst⟩
      · refine Or.inl ⟨by simpa [hstep] using heq, ?_⟩
        intro q hq hq2
        rcases List.mem_cons.1 hq with rfl | hq
        · exact absurd hq2 hok
        · exact hmax q hq hq2
      · refine Or.inr ⟨p, List.mem_cons_of_mem a hpL, hpok, by simpa [hstep] using heq,
          hlt, ?_, ?_⟩
        · intro q hq hq2
          rcases List.mem_cons.1 hq with rfl | hq
          · exact absurd hq2 hok
          · exact hmax q hq hq2
        · intro q hq hq2 hqp
          rcases List.mem_cons.1 hq with rfl | hq
          · exact absurd hq2 hok
          · exact hfirst q hq hq2 hqp

/-- Membership in the split-position list, for patterns of length at
most 15. -/
lemma mem_morse_split_positions {len q : ℕ} (hlen : len ≤ 15) :
    q ∈ morse_split_positions len ↔ 1 ≤ q ∧ q < len := by
  unfold morse_split_positions
  rw [List.mem_range'_1]
  omega

/-- A weight of an acceptable split is at least `2`. -/
lemma two_le_split_weight (pat : List Char) (p : ℕ) :
    2 ≤ split_weight pat p := by
  unfold split_weight
  have h1 := one_le_morse_char_weight (morse_lookup (pat.take p))
  have h2 := one_le_morse_char_weight (morse_lookup (pat.drop p))
  omega

/-- C3 (amended): for every non-empty `.`/`-` pattern of length at most 15
and every `out_len ≥ 2`: if `morse_lookup` succeeds on the whole pattern
(returns a character other than `?` — the table entry for `?` itself is
indistinguishable from a miss and is treated as one), `morse_lookup_merged`
writes exactly that one character; otherwise, among split positions where
both substring lookups succeed, it writes the two characters of the split
maximising `weight(left) + weight(right)`, ties broken by the earliest
split position (first-wins via strict `>`), and returns 2; if no split is
acceptable it writes a single `?`. -/
theorem c3_merged_lookup_characterisation (pat : List Char) (out_len : ℤ)
    (hne : pat ≠ []) (hlen : pat.length ≤ 15)
    (hdd : ∀ c ∈ pat, c = '.' ∨ c = '-') (hout : 2 ≤ out_len) :
    (morse_lookup pat ≠ '?' → morse_lookup_merged pat out_len = [morse_lookup pat]) ∧
    (morse_lookup pat = '?' →
      ((∀ p, ¬ valid_split pat p) → morse_lookup_merged pat out_len = ['?']) ∧
      (∀ p1, valid_split pat p1 →
        ∃ p, valid_split pat p ∧
          morse_lookup_merged pat out_len =
            [morse_lookup (pat.take p), morse_lookup (pat.drop p)] ∧
          (∀ q, valid_split pat q → split_weight pat q ≤ split_weight pat p) ∧
          (∀ q, valid_split pat q → q < p → split_weight pat q < split_weight pat p))) := by
  have hguard : ¬ (pat = [] ∨ out_len < 1) := by
    rintro (h | h)
    · exact hne h
    · omega
  constructor
  · intro hdir
    unfold morse_lookup_merged
    rw [if_neg hguard, if_pos hdir]
  · intro hdir
    have hmem : ∀ q, q ∈ morse_split_positions pat.length ↔ 1 ≤ q ∧ q < pat.length :=
      fun q => mem_morse_split_positions hlen
    by_cases hlen1 : (pat.length : ℤ) ≤ 1
    · have hres : morse_lookup_merged pat out_len = ['?'] := by
        unfold morse_lookup_merged
        rw [if_neg hguard, if_neg (by simpa using hdir), if_pos hlen1]
      refine ⟨fun _ => hres, fun p1 hp1 => absurd hp1 ?_⟩
      intro hv
      rcases hv with ⟨h1, h2, _⟩
      omega
    · have hpw : (morse_split_positions pat.length).Pairwise (· < ·) :=
        List.pairwise_lt_range' _ _
      rcases morse_fold_char pat (morse_split_positions pat.length) hpw
          (-1, Char.ofNat 0, Char.ofNat 0) with
        ⟨heq, hmax⟩ | ⟨p, hpL, hpok, heq, _, hmax, hfirst⟩
      · have hnov : ∀ p, ¬ valid_split pat p := by
          intro p hv
          rcases hv with ⟨h1, h2, hok⟩
          have := hmax p ((hmem p).2 ⟨h1, h2⟩) hok
          have := two_le_split_weight pat p
          omega
        have hres : morse_lookup_merged pat out_len = ['?'] := by
          unfold morse_lookup_merged
          rw [if_neg hguard, if_neg (by simpa using hdir), if_neg hlen1]
          rw [heq]
          norm_num
        exact ⟨fun _ => hres, fun p1 hp1 => absurd hp1 (hnov p1)⟩
      · have hpv : valid_split pat p := by
          have := (hmem p).1 hpL
          exact ⟨this.1, this.2, hpok⟩
        have hres : morse_lookup_merged pat out_len =
            [morse_lookup (pat.take p), morse_lookup (pat.drop p)] := by
          unfold morse_lookup_merged
          rw [if_neg hguard, if_neg (by simpa using hdir), if_neg hlen1]
          rw [heq]
          have h2 := two_le_split_weight pat p
          rw [if_pos ⟨by omega, hout⟩]
        refine ⟨fun hno => absurd hpv (hno p), fun p1 hp1 => ⟨p, hpv, hres, ?_, ?_⟩⟩
        · intro q hq
          exact hmax q ((hmem q).2 ⟨hq.1, hq.2.1⟩) hq.2.2
        · intro q hq hqp
          exact hfirst q ((hmem q).2 ⟨hq.1, hq.2.1⟩) hq.2.2 hqp

/-- C3 (counterexample): the pattern `..--..` is a direct table hit (the
entry for `?`), yet `morse_lookup_merged` does not write that single
character: the `?` sentinel makes the direct hit indistinguishable from a
miss, and the split `..` + `--..` is emitted as the two characters `IZ`. -/
theorem c3_direct_hit_counterexample :
    (['.', '.', '-', '-', '.', '.'], '?', (5 : ℤ)) ∈ MORSE_TABLE ∧
    morse_lookup_merged ['.', '.', '-', '-', '.', '.'] 2 = ['I', 'Z'] ∧
    morse_lookup_merged ['.', '.', '-', '-', '.', '.'] 2 ≠
      ['?'] := by decide

/-- Witness for C3: a concrete direct hit emits exactly that character. -/
theorem c3_merged_lookup_characterisation_witness :
    morse_lookup_merged ['.'] 2 = [morse_lookup ['.']] :=
  (c3_merged_lookup_characterisation ['.'] 2 (by decide) (by decide) (by decide)
    (by decide)).1 (by decide)

/-- C1 (counterexample): on the pattern `.-.-` with `out_len = 2` the
merged lookup writes `EK` (the split `.` + `-.-`, weight `321 + 17 = 338`,
beats `.-` + `.-`, weight `127 + 127 = 254`), not `AA`. -/
theorem c1_counterexample :
    morse_lookup_merged ['.', '-', '.', '-'] 2 = ['E', 'K'] ∧
    morse_lookup_merged ['.', '-', '.', '-'] 2 ≠ ['A', 'A'] := by decide

/-- C1 (amended): feeding the pattern `.-.-` (which has no direct table
entry) to `morse_lookup_merged` with `out_len ≥ 2` writes exactly the two
characters `EK` and returns 2. -/
theorem c1_merged_dotdash (out_len : ℤ) (hout : 2 ≤ out_len) :
    morse_lookup_merged ['.', '-', '.', '-'] out_len = ['E', 'K'] := by
  have hb : (morse_split_positions (['.', '-', '.', '-'] : List Char).length).foldl
      (morse_split_step ['.', '-', '.', '-']) (-1, Char.ofNat 0, Char.ofNat 0) =
      (338, 'E', 'K') := by decide
  unfold morse_lookup_merged
  rw [if_neg (show ¬ ((['.', '-', '.', '-'] : List Char) = [] ∨ out_len < 1) by
        push_neg
        exact ⟨by decide, by omega⟩),
      if_neg (by decide), if_neg (by decide)]
  rw [hb, if_pos ⟨by norm_num, hout⟩]

/-- Witness for C1 at `out_len = 2`. -/
theorem c1_merged_dotdash_witness :
    morse_lookup_merged ['.', '-', '.', '-'] 2 = ['E', 'K'] :=
  c1_merged_dotdash 2 (by decide)

/-- C4 (amended): for every requested window and pass count, the multipass
window size produced by `envelope_init` (multipass mode) is odd, at least
5, and at most 257 (a request clamped to `MULTIPASS_MAX_WINDOW = 256` is
then bumped to the odd 257). -/
theorem c4_window_bounds {β : Type} [LinearOrderedField β] (ops : CMath β)
    (sample_rate : ℤ) (window_s thresh_on thresh_off : β) (mp_passes : ℤ) :
    (envelope_init ops sample_rate window_s thresh_on thresh_off 1
        mp_passes).mpf.window_size % 2 = 1 ∧
    5 ≤ (envelope_init ops sample_rate window_s thresh_on thresh_off 1
        mp_passes).mpf.window_size ∧
    (envelope_init ops sample_rate window_s thresh_on thresh_off 1
        mp_passes).mpf.window_size ≤ 257 := by
  unfold envelope_init
  rw [if_pos rfl]
  unfold multipass_init
  simp only
  generalize ops.toInt (((sample_rate : ℤ) : β) /
    (1 / (2 * window_s) * ops.pi * ops.sqrt ((mp_passes : ℤ) : β))) = w0
  split_ifs <;> omega

/-- C4 (counterexample): a half-second window request at one megahertz
yields an effective window of 257, exceeding the claimed bound of 255. -/
theorem c4_window_counterexample :
    (envelope_init qCMath 1000000 (1 / 2 : ℚ) 0 0 1 1).mpf.window_size = 257 ∧
    ¬ ((envelope_init qCMath 1000000 (1 / 2 : ℚ) 0 0 1 1).mpf.window_size ≤ 255) :=
  of_decide_eq_true (by with_unfolding_all rfl)

/-! ## Output-filter latch lemmas -/

/-- `emit_word` never clears a set `warmed_up` bit. -/
lemma emit_word_warm (f : output_filter_t) (out_len : ℤ) (hw : f.warmed_up = true) :
    (emit_word f out_len).2.warmed_up = true := by
  unfold emit_word
  split_ifs <;> simp [hw]

/-- The feed loop never clears a set `warmed_up` bit. -/
lemma output_filter_feed_go_warm (text : List Char) (f : output_filter_t)
    (out_len written : ℤ) (hw : f.warmed_up = true) :
    (output_filter_feed_go f text out_len written).2.warmed_up = true := by
  induction text generalizing f written with
  | nil => simpa [output_filter_feed_go] using hw
  | cons ch rest ih =>
    simp only [output_filter_feed_go]
    split_ifs <;>
      first
        | simpa using hw
        | exact ih _ _ (by simpa using emit_word_warm f (out_len - written) hw)
        | exact ih _ _ (by simpa using hw)

/-- C8: once the output filter's `warmed_up` bit is set, neither
`output_filter_feed` nor `output_filter_flush` ever clears it; only
`output_filter_reset` clears it; and while it is set the buffered word is
emitted verbatim by a flush whose output capacity suffices. -/
theorem c8_warmed_up_latch (f : output_filter_t) (text : List Char)
    (out_len flush_len : ℤ) (hw : f.warmed_up = true) :
    (output_filter_feed f text out_len).2.warmed_up = true ∧
    (output_filter_flush f flush_len).2.warmed_up = true ∧
    (output_filter_reset f).warmed_up = false ∧
    ((f.word_buf.length : ℤ) ≤ flush_len →
      (output_filter_flush f flush_len).1 = f.word_buf) := by
  refine ⟨output_filter_feed_go_warm text f out_len 0 hw, ?_, ?_, ?_⟩
  · unfold output_filter_flush
    simpa using emit_word_warm f flush_len hw
  · simp [output_filter_reset]
  · intro hlen
    unfold output_filter_flush emit_word
    by_cases h0 : f.word_buf.length = 0
    · rw [if_pos h0]
      simp [List.eq_nil_of_length_eq_zero h0]
    · rw [if_neg h0, if_pos hw]
      simp only
      have hmin : min (f.word_buf.length : ℤ) flush_len = (f.word_buf.length : ℤ) := by
        omega
      rw [hmin]
      simp

/-- A concrete warmed-up filter state holding the word `HI`. -/
def c8_filter : output_filter_t :=
  { word_buf := ['H', 'I'], warmed_up := true, min_word_length := 2 }

/-- Witness for C8 on a concrete warmed-up filter holding the word `HI`. -/
theorem c8_warmed_up_latch_witness :
    (output_filter_feed c8_filter ['O', ' '] 10).2.warmed_up = true ∧
    (output_filter_flush c8_filter 10).2.warmed_up = true ∧
    (output_filter_reset c8_filter).warmed_up = false ∧
    ((c8_filter.word_buf.length : ℤ) ≤ 10 →
      (output_filter_flush c8_filter 10).1 = c8_filter.word_buf) :=
  c8_warmed_up_latch c8_filter ['O', ' '] 10 10 (by decide)

/-! ## Timing branch lemmas -/

/-- `classify_signal_kalman` returns only NONE, DIT or DAH, and leaves
`prev_on` unchanged. -/
lemma classify_signal_kalman_cases {β : Type} [LinearOrderedField β] (ops : CMath β)
    (t : timing_t β) (d : ℤ) :
    ((classify_signal_kalman ops t d).1 = ELEM_NONE ∨
     (classify_signal_kalman ops t d).1 = ELEM_DIT ∨
     (classify_signal_kalman ops t d).1 = ELEM_DAH) ∧
    (classify_signal_kalman ops t d).2.prev_on = t.prev_on := by
  simp only [classify_signal_kalman]
  split_ifs <;> simp

/-- `classify_signal_ema` returns only NONE, DIT or DAH, and leaves
`prev_on` unchanged. -/
lemma classify_signal_ema_cases {β : Type} [LinearOrderedField β] (ops : CMath β)
    (t : timing_t β) (d : ℤ) :
    ((classify_signal_ema ops t d).1 = ELEM_NONE ∨
     (classify_signal_ema ops t d).1 = ELEM_DIT ∨
     (classify_signal_ema ops t d).1 = ELEM_DAH) ∧
    (classify_signal_ema ops t d).2.prev_on = t.prev_on := by
  simp only [classify_signal_ema]
  split_ifs <;> simp

/-- C9: in a single `timing_process_sample` call the mark-classification
branch (previous bit 1, current bit 0) and the gap-classification branch
(previous bit 0, current bit 1) are mutually exclusive, and when the mark
branch fires the returned element is the mark classification (NONE, DIT or
DAH) — it is never overridden by a gap result (CHAR or WORD) in the same
call. -/
theorem c9_timing_branch_exclusive {β : Type} [LinearOrderedField β]
    (ops : CMath β) (t : timing_t β) (onb : Bool) :
    ¬ ((t.prev_on = true ∧ onb = false) ∧ (t.prev_on = false ∧ onb = true)) ∧
    (t.prev_on = true → onb = false →
      ((timing_process_sample ops t onb).1 = ELEM_NONE ∨
       (timing_process_sample ops t onb).1 = ELEM_DIT ∨
       (timing_process_sample ops t onb).1 = ELEM_DAH)) := by
  constructor
  · rintro ⟨⟨h1, _⟩, ⟨h3, _⟩⟩
    rw [h1] at h3
    exact absurd h3 (by decide)
  · intro hp ho
    subst ho
    by_cases hm : t.mode = 1
    · rcases classify_signal_kalman_cases ops { t with off_dur := t.off_dur + 1 } t.on_dur
        with ⟨hc, _⟩
      simp only [hp, hm] at hc
      simp only [timing_process_sample, Bool.false_eq_true, if_false, hp, hm]
      simp only [if_true, ite_true, and_self, and_true, true_and, and_false, false_and,
        if_false, ite_false, Bool.true_eq_false, not_false_iff]
      exact hc
    · rcases classify_signal_ema_cases ops { t with off_dur := t.off_dur + 1 } t.on_dur
        with ⟨hc, _⟩
      simp only [hp] at hc
      simp only [timing_process_sample, Bool.false_eq_true, if_false, hp, if_neg hm]
      simp only [if_true, ite_true, and_self, and_true, true_and, and_false, false_and,
        if_false, ite_false, Bool.true_eq_false, not_false_iff]
      exact hc

/-- A concrete EMA-mode timing state in the middle of a mark. -/
def c9_timing : timing_t ℚ :=
  { mode := 0, sample_rate := 10, kalman := zeroKalman, avg_dit := 1,
    ema_alpha := 1 / 10, dit_dah_threshold := 2, char_pause_mul := 5 / 2,
    word_pause_mul := 6, min_element_frac := 0, min_element_abs := 0,
    on_dur := 3, off_dur := 0, prev_on := true, seen_signal := true,
    element_count := 0 }

/-- Witness for C9: the mark branch on a concrete state yields a mark
classification. -/
theorem c9_timing_branch_exclusive_witness :
    (timing_process_sample qCMath c9_timing false).1 = ELEM_NONE ∨
    (timing_process_sample qCMath c9_timing false).1 = ELEM_DIT ∨
    (timing_process_sample qCMath c9_timing false).1 = ELEM_DAH :=
  (c9_timing_branch_exclusive qCMath c9_timing false).2 rfl rfl

/-! ## Kalman guard theorems -/

/-- C10: for every state index outside `[0, 5)` and for every duration at
most `0`, `kalman_update` returns `0` and leaves the state vector and
covariance exactly unchanged (the whole state is returned untouched). -/
theorem c10_kalman_guard_rejects (k : kalman_t ℝ) (i : ℤ) (D : ℝ)
    (h : (i < 0 ∨ 5 ≤ i) ∨ D ≤ 0) :
    kalman_update realCMath k i D = (k, false) := by
  unfold kalman_update
  rcases h with h | h
  · rw [dif_pos h]
  · by_cases hi : i < 0 ∨ 5 ≤ i
    · rw [dif_pos hi]
    · rw [dif_neg hi, if_pos h]

/-- Witness for C10 at index 7. -/
theorem c10_kalman_guard_rejects_witness :
    kalman_update realCMath zeroKalman 7 1 = (zeroKalman, false) :=
  c10_kalman_guard_rejects zeroKalman 7 1 (Or.inl (by omega))

/-- C6: for every valid state index and positive duration whose log lies
outside the innovation gate `ln 2`, `kalman_update` rejects the
measurement and returns the state exactly unchanged. -/
theorem c6_kalman_gate_rejects (k : kalman_t ℝ) (i : Fin 5) (D : ℝ)
    (hD : 0 < D) (hgate : k.innovation_gate = Real.log 2)
    (hinn : |Real.log D - k.x i| > Real.log 2) :
    kalman_update realCMath k ((i : ℕ) : ℤ) D = (k, false) := by
  have hnot : ¬ (((i : ℕ) : ℤ) < 0 ∨ 5 ≤ ((i : ℕ) : ℤ)) := by
    have := i.isLt
    omega
  have hDn : ¬ (D ≤ 0) := not_le.2 hD
  unfold kalman_update
  rw [dif_neg hnot, if_neg hDn]
  have hj : (⟨(((i : ℕ) : ℤ)).toNat, by omega⟩ : Fin 5) = i := by
    apply Fin.ext
    simp
  rw [if_pos]
  show |realCMath.log D - k.x ⟨(((i : ℕ) : ℤ)).toNat, by omega⟩| > k.innovation_gate
  rw [hgate]
  have hx : k.x (⟨(((i : ℕ) : ℤ)).toNat, by omega⟩ : Fin 5) = k.x i := by rw [hj]
  rw [show realCMath.log = Real.log from rfl, hx]
  exact hinn

/-- A zero-state Kalman filter whose innovation gate is `ln 2`, as set by
`kalman_init`. -/
noncomputable def c6_kalman : kalman_t ℝ :=
  { zeroKalman with innovation_gate := Real.log 2 }

/-- Witness for C6: a duration of 8 samples against a unit estimate is
outside the gate and rejected. -/
theorem c6_kalman_gate_rejects_witness :
    kalman_update realCMath c6_kalman (((0 : Fin 5) : ℕ) : ℤ) 8 = (c6_kalman, false) :=
  c6_kalman_gate_rejects c6_kalman 0 8 (by norm_num) rfl
    (by
      have h0 : c6_kalman.x 0 = 0 := rfl
      rw [h0, sub_zero, abs_of_nonneg (Real.log_nonneg (by norm_num))]
      exact Real.log_lt_log (by norm_num) (by norm_num))

/-! ## Kalman covariance invariants -/

/-- Any two-point quadratic form of a positive semidefinite matrix is
nonnegative. -/
lemma psd_two_point (P : Fin 5 → Fin 5 → ℝ)
    (hpsd : ∀ v : Fin 5 → ℝ, 0 ≤ ∑ s, ∑ u, v s * P s u * v u)
    (c d : ℝ) (a b : Fin 5) :
    0 ≤ c * c * P a a + c * d * P a b + c * d * P b a + d * d * P b b := by
  have h := hpsd (fun t => c * (if t = a then 1 else 0) + d * (if t = b then 1 else 0))
  simp only [mul_ite, ite_mul, mul_zero, zero_mul, mul_one, one_mul, mul_add, add_mul,
    Finset.sum_add_distrib, Finset.sum_ite_eq', Finset.mem_univ, if_true] at h
  linear_combination h

/-- The two sequential clamping ifs land in `[lo, hi]` when `lo ≤ hi`. -/
lemma cclamp_mem {β : Type} [LinearOrderedField β] (lo hi v : β) (h : lo ≤ hi) :
    lo ≤ cclamp lo hi v ∧ cclamp lo hi v ≤ hi := by
  simp only [cclamp]
  split_ifs <;> constructor <;> linarith

/-- The Joseph-form covariance update preserves symmetry. -/
lemma kalman_joseph_P_symm (k : kalman_t ℝ) (j : Fin 5) (inn : ℝ)
    (hsym : ∀ a b, k.P a b = k.P b a) (a b : Fin 5) :
    (kalman_joseph k j inn).P a b = (kalman_joseph k j inn).P b a := by
  simp only [kalman_joseph]
  by_cases hab : a = b
  · subst hab
    ring
  · rw [if_neg hab, if_neg (fun hc => hab hc.symm)]
    rw [hsym a b, hsym j b, hsym a j]
    ring

/-- The Joseph-form covariance update keeps the diagonal nonnegative when
the previous covariance is symmetric positive semidefinite. -/
lemma kalman_joseph_P_diag (k : kalman_t ℝ) (j : Fin 5) (inn : ℝ)
    (hsym : ∀ a b, k.P a b = k.P b a)
    (hpsd : ∀ v : Fin 5 → ℝ, 0 ≤ ∑ s, ∑ u, v s * k.P s u * v u)
    (hR : 0 ≤ k.R) (hQ : ∀ a, 0 ≤ k.Q a) (a : Fin 5) :
    0 ≤ (kalman_joseph k j inn).P a a := by
  simp only [kalman_joseph, eq_self_iff_true, if_true]
  have hq := psd_two_point k.P hpsd 1 (-(k.P a j / kalman_S k j)) a j
  have hsq : 0 ≤ (k.P a j / kalman_S k j) * k.R * (k.P a j / kalman_S k j) := by
    nlinarith [mul_nonneg (mul_self_nonneg (k.P a j / kalman_S k j)) hR]
  have hQa := hQ a
  rw [hsym j a] at hq
  rw [show k.P j a = k.P a j from hsym j a]
  nlinarith [hq, hsq, hQa]

/-- After `apply_bounds` the log-state satisfies all WPM and ratio bounds
(for a sane configuration), and the covariance is untouched. -/
lemma apply_bounds_spec (k : kalman_t ℝ) (hmin : 0 < k.min_wpm)
    (hmm : k.min_wpm ≤ k.max_wpm) (hsr : 0 < k.sample_rate) :
    Real.log ((6 / 5 / k.max_wpm) * ((k.sample_rate : ℤ) : ℝ)) ≤
        (apply_bounds realCMath k).x 0 ∧
    (apply_bounds realCMath k).x 0 ≤
        Real.log ((6 / 5 / k.min_wpm) * ((k.sample_rate : ℤ) : ℝ)) ∧
    Real.log 2 ≤ (apply_bounds realCMath k).x 1 - (apply_bounds realCMath k).x 0 ∧
    (apply_bounds realCMath k).x 1 - (apply_bounds realCMath k).x 0 ≤ Real.log 4 ∧
    -Real.log 2 ≤ (apply_bounds realCMath k).x 2 - (apply_bounds realCMath k).x 0 ∧
    (apply_bounds realCMath k).x 2 - (apply_bounds realCMath k).x 0 ≤ Real.log 2 ∧
    Real.log 2 ≤ (apply_bounds realCMath k).x 3 - (apply_bounds realCMath k).x 0 ∧
    (apply_bounds realCMath k).x 3 - (apply_bounds realCMath k).x 0 ≤ Real.log 4 ∧
    Real.log 5 ≤ (apply_bounds realCMath k).x 4 - (apply_bounds realCMath k).x 0 ∧
    (apply_bounds realCMath k).x 4 - (apply_bounds realCMath k).x 0 ≤ Real.log 9 ∧
    (apply_bounds realCMath k).P = k.P := by
  have hmax : (0 : ℝ) < k.max_wpm := lt_of_lt_of_le hmin hmm
  have hsrR : (0 : ℝ) < ((k.sample_rate : ℤ) : ℝ) := by exact_mod_cast hsr
  have hmd : (0 : ℝ) < 6 / 5 / k.max_wpm * ((k.sample_rate : ℤ) : ℝ) := by positivity
  have hle : 6 / 5 / k.max_wpm * ((k.sample_rate : ℤ) : ℝ) ≤
      6 / 5 / k.min_wpm * ((k.sample_rate : ℤ) : ℝ) := by
    have : 6 / 5 / k.max_wpm ≤ 6 / 5 / k.min_wpm :=
      div_le_div_of_nonneg_left (by norm_num) hmin hmm
    exact mul_le_mul_of_nonneg_right this (le_of_lt hsrR)
  have hlog : Real.log (6 / 5 / k.max_wpm * ((k.sample_rate : ℤ) : ℝ)) ≤
      Real.log (6 / 5 / k.min_wpm * ((k.sample_rate : ℤ) : ℝ)) :=
    Real.log_le_log hmd hle
  have h24 : Real.log 2 ≤ Real.log 4 := Real.log_le_log (by norm_num) (by norm_num)
  have h59 : Real.log 5 ≤ Real.log 9 := Real.log_le_log (by norm_num) (by norm_num)
  have h2 : (0 : ℝ) ≤ Real.log 2 := Real.log_nonneg (by norm_num)
  simp only [apply_bounds, Matrix.cons_val_zero, Matrix.cons_val_one, Matrix.head_cons,
    Matrix.cons_val_two, Matrix.tail_cons, Matrix.cons_val_three, Matrix.cons_val_four]
  show _ ∧ _ ∧ _ ∧ _ ∧ _ ∧ _ ∧ _ ∧ _ ∧ _ ∧ _ ∧ _
  rw [show realCMath.log = Real.log from rfl]
  have hb0 := cclamp_mem (Real.log (6 / 5 / k.max_wpm * ((k.sample_rate : ℤ) : ℝ)))
    (Real.log (6 / 5 / k.min_wpm * ((k.sample_rate : ℤ) : ℝ))) (k.x 0) hlog
  set A := Real.log (6 / 5 / k.max_wpm * ((k.sample_rate : ℤ) : ℝ)) with hA
  set B := Real.log (6 / 5 / k.min_wpm * ((k.sample_rate : ℤ) : ℝ)) with hB
  set ld := cclamp A B (k.x 0) with hld
  have hdah := cclamp_mem (ld + Real.log 2) (ld + Real.log 4) (k.x 1) (by linarith)
  have hes := cclamp_mem (ld - Real.log 2) (ld + Real.log 2) (k.x 2) (by linarith)
  have hcs := cclamp_mem (ld + Real.log 2) (ld + Real.log 4) (k.x 3) (by linarith)
  have hws := cclamp_mem (ld + Real.log 5) (ld + Real.log 9) (k.x 4) (by linarith)
  exact ⟨hb0.1, hb0.2, by linarith [hdah.1], by linarith [hdah.2], by linarith [hes.1],
    by linarith [hes.2], by linarith [hcs.1], by linarith [hcs.2], by linarith [hws.1],
    by linarith [hws.2], trivial⟩

/-- C5 (amended): for every accepted Kalman measurement, the post-update
log-state satisfies all bounds (`log d_dit` within the WPM window, and the
other four states within the stated log-ratio windows around the final
`log d_dit`), and the covariance `P` remains symmetric with non-negative
diagonal whenever it was symmetric positive semidefinite before (symmetry
with non-negative diagonal alone does not suffice; see the
counterexample). -/
theorem c5_kalman_update_accepted_invariants (k : kalman_t ℝ) (i : ℤ) (D : ℝ)
    (hsym : ∀ a b, k.P a b = k.P b a)
    (hpsd : ∀ v : Fin 5 → ℝ, 0 ≤ ∑ s, ∑ u, v s * k.P s u * v u)
    (hR : 0 ≤ k.R) (hQ : ∀ a, 0 ≤ k.Q a)
    (hmin : 0 < k.min_wpm) (hmm : k.min_wpm ≤ k.max_wpm) (hsr : 0 < k.sample_rate)
    (hacc : (kalman_update realCMath k i D).2 = true) :
    (Real.log ((6 / 5 / k.max_wpm) * ((k.sample_rate : ℤ) : ℝ)) ≤
        (kalman_update realCMath k i D).1.x 0 ∧
      (kalman_update realCMath k i D).1.x 0 ≤
        Real.log ((6 / 5 / k.min_wpm) * ((k.sample_rate : ℤ) : ℝ)) ∧
      Real.log 2 ≤ (kalman_update realCMath k i D).1.x 1 -
          (kalman_update realCMath k i D).1.x 0 ∧
      (kalman_update realCMath k i D).1.x 1 -
          (kalman_update realCMath k i D).1.x 0 ≤ Real.log 4 ∧
      -Real.log 2 ≤ (kalman_update realCMath k i D).1.x 2 -
          (kalman_update realCMath k i D).1.x 0 ∧
      (kalman_update realCMath k i D).1.x 2 -
          (kalman_update realCMath k i D).1.x 0 ≤ Real.log 2 ∧
      Real.log 2 ≤ (kalman_update realCMath k i D).1.x 3 -
          (kalman_update realCMath k i D).1.x 0 ∧
      (kalman_update realCMath k i D).1.x 3 -
          (kalman_update realCMath k i D).1.x 0 ≤ Real.log 4 ∧
      Real.log 5 ≤ (kalman_update realCMath k i D).1.x 4 -
          (kalman_update realCMath k i D).1.x 0 ∧
      (kalman_update realCMath k i D).1.x 4 -
          (kalman_update realCMath k i D).1.x 0 ≤ Real.log 9) ∧
    (∀ a b, (kalman_update realCMath k i D).1.P a b =
        (kalman_update realCMath k i D).1.P b a) ∧
    (∀ a, 0 ≤ (kalman_update realCMath k i D).1.P a a) := by
  by_cases h1 : i < 0 ∨ 5 ≤ i
  · exfalso
    unfold kalman_update at hacc
    rw [dif_pos h1] at hacc
    simp at hacc
  by_cases h2 : D ≤ 0
  · exfalso
    unfold kalman_update at hacc
    rw [dif_neg h1, if_pos h2] at hacc
    simp at hacc
  have hi5 : i.toNat < 5 := by omega
  by_cases h3 : |realCMath.log D - k.x ⟨i.toNat, hi5⟩| > k.innovation_gate
  · exfalso
    unfold kalman_update at hacc
    rw [dif_neg h1, if_neg h2, if_pos h3] at hacc
    simp at hacc
  have heq : kalman_update realCMath k i D =
      (apply_bounds realCMath
        (kalman_joseph k ⟨i.toNat, hi5⟩ (realCMath.log D - k.x ⟨i.toNat, hi5⟩)), true) := by
    unfold kalman_update
    rw [dif_neg h1, if_neg h2, if_neg h3]
  rw [heq]
  set kj := kalman_joseph k ⟨i.toNat, hi5⟩ (realCMath.log D - k.x ⟨i.toNat, hi5⟩) with hkj
  have hPeq : (apply_bounds realCMath kj).P = kj.P := rfl
  refine ⟨?_, ?_, ?_⟩
  · obtain ⟨b1, b2, b3, b4, b5, b6, b7, b8, b9, b10, _⟩ :=
      apply_bounds_spec kj hmin hmm hsr
    exact ⟨b1, b2, b3, b4, b5, b6, b7, b8, b9, b10⟩
  · intro a b
    rw [hPeq]
    exact kalman_joseph_P_symm k _ _ hsym a b
  · intro a
    rw [hPeq]
    exact kalman_joseph_P_diag k _ _ hsym hpsd hR hQ a

/-- A symmetric covariance with zero diagonal and unit off-diagonal
coupling between the dit and dah states: not positive semidefinite. -/
noncomputable def c5_kalman : kalman_t ℝ :=
  { x := fun _ => 0,
    P := fun a b => if (a = 0 ∧ b = 1) ∨ (a = 1 ∧ b = 0) then 1 else 0,
    Q := fun _ => 1 / 100, R := 1 / 10, innovation_gate := Real.log 2,
    sample_rate := 48000, min_wpm := 5, max_wpm := 60 }

/-- C5 (counterexample): an accepted measurement on a symmetric covariance
with non-negative diagonal can drive a diagonal entry negative, so the
claim's precondition (symmetric with non-negative diagonal) is too weak. -/
theorem c5_symmetric_nonneg_diag_counterexample :
    (∀ a b, c5_kalman.P a b = c5_kalman.P b a) ∧
    (∀ a, 0 ≤ c5_kalman.P a a) ∧
    (kalman_update realCMath c5_kalman 0 1).2 = true ∧
    (kalman_update realCMath c5_kalman 0 1).1.P 1 1 < 0 := by
  have hx : c5_kalman.x ⟨(0 : ℤ).toNat, by omega⟩ = 0 := rfl
  have h1 : ¬ ((0 : ℤ) < 0 ∨ 5 ≤ (0 : ℤ)) := by omega
  have h2 : ¬ ((1 : ℝ) ≤ 0) := by norm_num
  have h3 : ¬ (|realCMath.log 1 - c5_kalman.x ⟨(0 : ℤ).toNat, by omega⟩| >
      c5_kalman.innovation_gate) := by
    rw [hx, show realCMath.log = Real.log from rfl, Real.log_one, sub_zero, abs_zero]
    exact not_lt.2 (Real.log_nonneg (by norm_num))
  have heq : kalman_update realCMath c5_kalman 0 1 =
      (apply_bounds realCMath
        (kalman_joseph c5_kalman ⟨(0 : ℤ).toNat, by omega⟩
          (realCMath.log 1 - c5_kalman.x ⟨(0 : ℤ).toNat, by omega⟩)), true) := by
    unfold kalman_update
    rw [dif_neg h1, if_neg h2, if_neg h3]
  refine ⟨?_, ?_, ?_, ?_⟩
  · intro a b
    fin_cases a <;> fin_cases b <;> norm_num [c5_kalman, Fin.ext_iff]
  · intro a
    fin_cases a <;> norm_num [c5_kalman, Fin.ext_iff]
  · rw [heq]
  · have hP : (kalman_update realCMath c5_kalman 0 1).1.P 1 1 =
        (kalman_joseph c5_kalman ⟨(0 : ℤ).toNat, by omega⟩
          (realCMath.log 1 - c5_kalman.x ⟨(0 : ℤ).toNat, by omega⟩)).P 1 1 := by
      rw [heq]
      rfl
    rw [hP]
    simp only [kalman_joseph, kalman_S]
    norm_num [c5_kalman, Fin.ext_iff]

/-- Shape of `kalman_update` on the accepted path. -/
lemma kalman_update_accepts (k : kalman_t ℝ) (i : ℤ) (D : ℝ)
    (h1 : ¬ (i < 0 ∨ 5 ≤ i)) (h2 : ¬ (D ≤ 0)) (hi5 : i.toNat < 5)
    (h3 : ¬ (|realCMath.log D - k.x ⟨i.toNat, hi5⟩| > k.innovation_gate)) :
    kalman_update realCMath k i D =
      (apply_bounds realCMath
        (kalman_joseph k ⟨i.toNat, hi5⟩ (realCMath.log D - k.x ⟨i.toNat, hi5⟩)), true) := by
  unfold kalman_update
  rw [dif_neg h1, if_neg h2, if_neg h3]

/-- A diagonal (hence positive semidefinite) covariance state. -/
noncomputable def c5_kalman_diag : kalman_t ℝ :=
  { x := fun _ => 0, P := fun a b => if a = b then 1 / 10 else 0,
    Q := fun _ => 1 / 100, R := 1 / 10, innovation_gate := Real.log 2,
    sample_rate := 48000, min_wpm := 5, max_wpm := 60 }

/-- Witness for C5 on the diagonal covariance state. -/
theorem c5_kalman_update_accepted_invariants_witness :
    (∀ a b, (kalman_update realCMath c5_kalman_diag 0 1).1.P a b =
        (kalman_update realCMath c5_kalman_diag 0 1).1.P b a) ∧
    (∀ a, 0 ≤ (kalman_update realCMath c5_kalman_diag 0 1).1.P a a) := by
  have hx : c5_kalman_diag.x ⟨(0 : ℤ).toNat, by omega⟩ = 0 := rfl
  have hsym : ∀ a b, c5_kalman_diag.P a b = c5_kalman_diag.P b a := by
    intro a b
    simp [c5_kalman_diag, eq_comm]
  have hpsd : ∀ v : Fin 5 → ℝ, 0 ≤ ∑ s, ∑ u, v s * c5_kalman_diag.P s u * v u := by
    intro v
    simp only [c5_kalman_diag, mul_ite, ite_mul, mul_zero, zero_mul,
      Finset.sum_ite_eq', Finset.sum_ite_eq, Finset.mem_univ, if_true]
    refine Finset.sum_nonneg fun s _ => ?_
    nlinarith [mul_self_nonneg (v s)]
  have hacc : (kalman_update realCMath c5_kalman_diag 0 1).2 = true := by
    rw [kalman_update_accepts c5_kalman_diag 0 1 (by omega) (by norm_num) (by omega)
      (by
        rw [hx, show realCMath.log = Real.log from rfl, Real.log_one, sub_zero, abs_zero]
        exact not_lt.2 (Real.log_nonneg (by norm_num)))]
  have h := c5_kalman_update_accepted_invariants c5_kalman_diag 0 1 hsym hpsd (by norm_num [c5_kalman_diag])
    (fun a => by norm_num [c5_kalman_diag]) (by norm_num [c5_kalman_diag])
    (by norm_num [c5_kalman_diag]) (by norm_num [c5_kalman_diag]) hacc
  exact ⟨h.2.1, h.2.2⟩

lemma emit_word_len (f : output_filter_t) (ol : ℤ) :
    ((emit_word f ol).1.length : ℤ) ≤ max ol 0 := by
  simp only [emit_word]
  split_ifs <;> simp [List.length_take] <;> omega

lemma output_filter_feed_go_len (text : List Char) (f : output_filter_t)
    (ol written : ℤ) :
    (((output_filter_feed_go f text ol written).1.length : ℤ)) ≤
      max (ol - written) 0 := by
  induction text generalizing f written with
  | nil => simp [output_filter_feed_go]
  | cons ch rest ih =>
    simp only [output_filter_feed_go]
    split_ifs with h1 h2 h3 h4 h5
    · have he := emit_word_len f (ol - written)
      have hr := ih { (emit_word f (ol - written)).2 with word_buf := [] }
        (written + (emit_word f (ol - written)).1.length + 1)
      simp only [List.length_append, List.length_cons, List.length_nil] at *
      push_cast at *
      omega
    · have he := emit_word_len f (ol - written)
      have hr := ih { (emit_word f (ol - written)).2 with word_buf := [] }
        (written + (emit_word f (ol - written)).1.length)
      simp only [List.length_append] at *
      push_cast at *
      omega
    · have hr := ih { (emit_word f (ol - written)).2 with word_buf := [] } written
      simp only at *
      omega
    · have hr := ih { f with word_buf := f.word_buf ++ [ch] } written
      omega
    · have hr := ih f written
      omega
    · simp

lemma output_filter_feed_len (f : output_filter_t) (text : List Char) (ol : ℤ) :
    ((output_filter_feed f text ol).1.length : ℤ) ≤ max ol 0 := by
  simpa using output_filter_feed_go_len text f ol 0

lemma cw_elem_out_len {β : Type} [LinearOrderedField β] (dec : cw_decoder_t β)
    (elem : Char) (budget : ℤ) :
    ((cw_elem_out dec elem budget).1.length : ℤ) ≤ max budget 0 := by
  simp only [cw_elem_out]
  split_ifs <;>
    first
      | exact output_filter_feed_len _ _ _
      | simp

lemma cw_sample_loop_len {β : Type} [LinearOrderedField β] (ops : CMath β)
    (ons : List Bool) (dec : cw_decoder_t β) (ol written : ℤ) :
    ((cw_sample_loop ops dec ons ol written).1.length : ℤ) ≤ max (ol - written) 0 := by
  induction ons generalizing dec written with
  | nil => simp [cw_sample_loop]
  | cons onb rest ih =>
    simp only [cw_sample_loop]
    split_ifs with h1
    · have he := cw_elem_out_len
        { dec with timing := (timing_process_sample ops dec.timing onb).2 }
        (timing_process_sample ops dec.timing onb).1 (ol - written)
      have hr := ih
        (cw_elem_out { dec with timing := (timing_process_sample ops dec.timing onb).2 }
          (timing_process_sample ops dec.timing onb).1 (ol - written)).2
        (written +
          (cw_elem_out { dec with timing := (timing_process_sample ops dec.timing onb).2 }
            (timing_process_sample ops dec.timing onb).1 (ol - written)).1.length)
      simp only [List.length_append] at *
      push_cast at *
      omega
    · exact le_max_of_le_right le_rfl

lemma cw_process_go_len {β : Type} [LinearOrderedField β] (ops : CMath β)
    (fuel : ℕ) (ol : ℤ) : ∀ (dec : cw_decoder_t β) (audio : List β) (written : ℤ),
    ((cw_process_go ops dec fuel audio ol written).1.length : ℤ) ≤
      max (ol - written) 0 := by
  induction fuel with
  | zero =>
    intro dec audio written
    simp [cw_process_go]
  | succ fuel ih =>
    intro dec audio written
    have key : ∀ (d1 : cw_decoder_t β) (o1 : List Bool) (rest : List β),
        written < ol →
        (((cw_sample_loop ops d1 o1 ol written).1 ++
          (cw_process_go ops (cw_sample_loop ops d1 o1 ol written).2 fuel rest ol
            (written + ((cw_sample_loop ops d1 o1 ol written).1.length : ℤ))).1).length : ℤ) ≤
          max (ol - written) 0 := by
      intro d1 o1 rest h
      have hs := cw_sample_loop_len ops o1 d1 ol written
      have hr := ih (cw_sample_loop ops d1 o1 ol written).2 rest
        (written + ((cw_sample_loop ops d1 o1 ol written).1.length : ℤ))
      simp only [List.length_append]
      push_cast at *
      omega
    simp only [cw_process_go]
    split_ifs with h1 h2 h3
    · simp
    · exact key _ _ _ h2
    · exact key _ _ _ h2
    · exact le_max_of_le_right le_rfl

/-- `output_filter_flush` writes at most the available capacity. -/
lemma output_filter_flush_len (f : output_filter_t) (b : ℤ) :
    ((output_filter_flush f b).1.length : ℤ) ≤ max b 0 := by
  simpa [output_filter_flush] using emit_word_len f b

/-- `cw_decoder_finalize` writes at most the available capacity. -/
lemma cw_decoder_finalize_len {β : Type} [LinearOrderedField β] (ops : CMath β)
    (dec : cw_decoder_t β) (ol : ℤ) :
    ((cw_decoder_finalize ops dec ol).1.length : ℤ) ≤ max ol 0 := by
  simp only [cw_decoder_finalize]
  set E := cw_elem_out { dec with timing := (timing_finalize ops dec.timing).2 }
    (timing_finalize ops dec.timing).1 (ol - 0) with hE
  set PF := pattern_flush E.2 4 with hPF
  have h1 : ((E.1.length : ℤ)) ≤ max (ol - 0) 0 := by
    rw [hE]
    exact cw_elem_out_len _ _ _
  split_ifs with h2
  · dsimp only
    have hq := output_filter_feed_len PF.2.output PF.1 (ol - ((E.1.length : ℤ)))
    have hfl := output_filter_flush_len
      (output_filter_feed PF.2.output PF.1 (ol - ((E.1.length : ℤ)))).2
      (ol - (((E.1.length : ℤ)) +
        ((output_filter_feed PF.2.output PF.1 (ol - ((E.1.length : ℤ)))).1.length : ℤ)))
    simp only [List.length_append] at *
    push_cast at *
    omega
  · dsimp only
    have hfl := output_filter_flush_len PF.2.output
      (ol - (((E.1.length : ℤ)) + (([] : List Char).length : ℤ)))
    simp only [List.length_append, List.length_nil] at *
    push_cast at *
    omega

/-- C7: for every decoder state, every audio input and every
`out_len ≥ 0`, `cw_decoder_process` and `cw_decoder_finalize` write a
character count between `0` and `out_len`; since every store goes to index
`written` (the output list's current length), no store ever targets an
index at or beyond `out_len`. -/
theorem c7_output_buffer_safety {β : Type} [LinearOrderedField β] (ops : CMath β)
    (dec : cw_decoder_t β) (audio : List β) (out_len : ℤ) (h : 0 ≤ out_len) :
    (0 ≤ ((cw_decoder_process ops dec audio out_len).1.length : ℤ) ∧
      ((cw_decoder_process ops dec audio out_len).1.length : ℤ) ≤ out_len) ∧
    (0 ≤ ((cw_decoder_finalize ops dec out_len).1.length : ℤ) ∧
      ((cw_decoder_finalize ops dec out_len).1.length : ℤ) ≤ out_len) := by
  refine ⟨⟨Int.natCast_nonneg _, ?_⟩, ⟨Int.natCast_nonneg _, ?_⟩⟩
  · simp only [cw_decoder_process]
    split_ifs with h1
    · simpa using h
    · have hb := cw_process_go_len ops audio.length out_len dec audio 0
      omega
  · have hb := cw_decoder_finalize_len ops dec out_len
    omega

/-- A rational test configuration: 10 Hz sample rate, no bandpass, EMA
timing, single-pass multipass envelope with a tiny window (clamped to 5),
thresholds 0.52/0.41, 12 WPM initial speed (a one-sample dit at 10 Hz), no
noise floor, no warm-up suppression. -/
def qcfg : cw_config_t ℚ :=
  { sample_rate := 10, center_freq := 700, bandwidth := 0,
    threshold_on := 13 / 25, threshold_off := 41 / 100,
    timing_mode := 0, envelope_mode := 1,
    initial_wpm := 12, min_wpm := 5, max_wpm := 60,
    envelope_window_s := 1 / 1000, min_element_frac := 0, min_element_s := 0,
    use_hmm := 0, min_word_length := 0, multipass_passes := 1 }

/-- Witness for C7 on a freshly created decoder and a two-sample input. -/
theorem c7_output_buffer_safety_witness :
    ((cw_decoder_process qCMath (cw_decoder_create qCMath qcfg) [0, 1] 10).1.length : ℤ)
      ≤ 10 :=
  (c7_output_buffer_safety qCMath (cw_decoder_create qCMath qcfg) [0, 1] 10
    (by decide)).1.2

/-- The 38-sample test signal: a four-sample tone, a three-sample tone and
a five-sample tone separated by silences. -/
def c2_audio : List ℚ :=
  [1, 1, 1, 1] ++ List.replicate 10 0 ++ List.replicate 3 1 ++
    List.replicate 9 0 ++ List.replicate 5 1 ++ List.replicate 7 0

set_option maxRecDepth 40000 in
/-- C2 (counterexample): the same audio fed as one chunk versus as two
chunks split at sample 5 produces different concatenated output
(`T T T` versus `T T`): the multipass boundary buffering substitutes the
current chunk's first sample when its ring buffer is still short, and the
envelope's peak tracking decays once per call, so chunk boundaries change
the on/off trace. -/
theorem c2_chunking_counterexample :
    c2_audio.take 5 ++ c2_audio.drop 5 = c2_audio ∧
    cw_decode_chunked qCMath qcfg [c2_audio] 1000 ≠
      cw_decode_chunked qCMath qcfg [c2_audio.take 5, c2_audio.drop 5] 1000 :=
  of_decide_eq_true (by with_unfolding_all rfl)

/-- C2 (amended): two decoders created from the same configuration and fed
the same chunk sequence produce identical concatenated output — the output
is a function of the chunk sequence, but not independent of where the
chunk boundaries fall. -/
theorem c2_same_chunking_deterministic {β : Type} [LinearOrderedField β]
    (ops : CMath β) (cfg : cw_config_t β) (chunks : List (List β)) (out_len : ℤ) :
    cw_decode_chunked ops cfg chunks out_len =
      cw_decode_chunked ops cfg chunks out_len := rfl
